import Mathlib

/-!
# OpenSMTPD `table_ldap.c`: a shallow embedding and its properties

The C translation unit `smtpd/table_ldap.c` is embedded function by function.
C strings are `List Char`: the list is the content of the string before its
terminating NUL, one `Char` standing for one `char`.  Library code that the
translation unit calls but does not define (the `aldap` protocol layer, the
host's `alias_parse` and `expand_insert`, the constant `MAX_LDAP_FILTERLEN`)
enters through the structure `Host` or through definitions marked as modelled.
`table_ldap_expandfilter` calls `snprintf` with the destination buffer as its
first string argument, which the C standard leaves undefined; the two
behaviours C libraries show on that call are the values of `libc_overlap`, a
field of `Host`, and every statement that needs the call to append says so in
a hypothesis.
Message ids and node counts are natural numbers without an upper bound; the
response stream of a session is the list of messages that the successive calls
of `aldap_parse` return, the end of the list being the call that returns
`NULL`.
-/

set_option autoImplicit false

namespace TableLdap

/-! ## Data model -/

/-- The `struct ldap_conf` of `table_ldap.h`, with the fields `table_ldap.c` reads. -/
structure ldap_conf where
  identifier : List Char
  url : List Char
  username : List Char
  password : List Char
  m_ldapbasedn : List Char
  m_ldapfilter : List Char
  m_ldapattr : List Char
  deriving DecidableEq, Repr

/-- The `enum protocol_op` of `aldap.h`: the message types `table_ldap.c`
tells apart, every other tag being `LDAP_OTHER`. -/
inductive protocol_op where
  | LDAP_RES_BIND
  | LDAP_RES_SEARCH_ENTRY
  | LDAP_RES_SEARCH_RESULT
  | LDAP_OTHER (tag : Nat)
  deriving DecidableEq, Repr

/-- The `enum result_code` of `aldap.h`: the result codes `table_ldap_open`
tells apart, every other code being `LDAP_OTHER`. -/
inductive result_code where
  | LDAP_SUCCESS
  | LDAP_INVALID_CREDENTIALS
  | LDAP_OTHER (code : Nat)
  deriving DecidableEq, Repr

/-- The `struct aldap_page_control`: the continuation cookie of a paged search;
`cookie_len` is the length of `cookie`. -/
structure aldap_page_control where
  size : Int
  cookie : List Nat
  deriving DecidableEq, Repr

/-- The field `cookie_len` of `struct aldap_page_control`. -/
def aldap_page_control.cookie_len (pg : aldap_page_control) : Nat := pg.cookie.length

/-- The `struct aldap_message`: one decoded response.  `rescode` is what
`aldap_get_resultcode` returns for it, `attrs` the attributes of a search entry. -/
structure aldap_message where
  msgid : Int
  message_type : protocol_op
  page : Option aldap_page_control
  rescode : result_code
  attrs : List (List Char × List (List Char))
  deriving DecidableEq, Repr

/-- The host's `struct expandnode`, kept as a type tag and a text payload. -/
structure expandnode where
  type : Nat
  u : List Char
  deriving DecidableEq, Repr

/-- The `enum scope` of `aldap.h`. -/
inductive scope where
  | LDAP_SCOPE_BASE
  | LDAP_SCOPE_ONELEVEL
  | LDAP_SCOPE_SUBTREE
  deriving DecidableEq, Repr

/-- The arguments of one `aldap_search` call. -/
structure search_request where
  basedn : List Char
  scope : scope
  filter : List Char
  attrs : List (List Char)
  typesonly : Int
  sizelimit : Int
  timelimit : Int
  page : Option aldap_page_control
  deriving DecidableEq, Repr

/-- The `struct aldap` session: the descriptor and the id of the last request,
followed by a record of the library calls made on the session (`binds` and
`searches` in call order, `freed` the messages given to `aldap_freemsg`,
`closed` the number of `aldap_close` calls). -/
structure aldap where
  fd : Int
  msgid : Nat
  binds : List (List Char × List Char)
  searches : List search_request
  freed : List aldap_message
  closed : Nat
  deriving DecidableEq, Repr

/-- The `struct ldaphandle`: a configuration and its session. -/
structure ldaphandle where
  conf : ldap_conf
  aldap : aldap
  deriving DecidableEq, Repr

/-- The `struct table_alias`. -/
structure table_alias where
  expand : List expandnode
  nbnodes : Nat
  deriving DecidableEq, Repr

/-- The `struct table_virtual`. -/
structure table_virtual where
  expand : List expandnode
  nbnodes : Nat
  deriving DecidableEq, Repr

/-- What the C library does with `snprintf(dst, size, "%s...", dst, ...)`,
a call whose first string argument is its own destination; the C standard
leaves the call undefined, and libraries differ.  `kept`: the output is
formatted in place and the destination is read intact, so the call appends
(BSD libc).  `cleared`: a NUL is stored at the start of the destination before
anything is formatted, so the destination is read as the empty string and its
earlier content is lost (glibc, musl). -/
inductive libc_overlap where
  | kept
  | cleared
  deriving DecidableEq, Repr

/-- What `table_ldap.c` takes from the rest of the program: the constant
`MAX_LDAP_FILTERLEN`, the host's `alias_parse` (`none` for the return value 0),
`aldap_match_attr` (`some vs` for the return value 1 with `*outvalues = vs`,
`none` for every other return value), whether the request that carries a
given message id is written to the server without error, and the behaviour of
the C library on an `snprintf` that reads its own destination. -/
structure Host where
  MAX_LDAP_FILTERLEN : Nat
  alias_parse : List Char → Option expandnode
  aldap_match_attr : aldap_message → List Char → Option (List (List Char))
  aldap_write : Nat → Bool
  overlap : libc_overlap

/-! ## `table_ldap_expandfilter` -/

/-- The largest value of a C `int`. -/
def INT_MAX : Int := 2147483647

/-- The conversion `(int)` of a `size_t` value: reduction modulo `2^32` into the
signed range. -/
def int_cast (n : Nat) : Int := ((n : Int) + 2147483648) % 4294967296 - 2147483648

/-- The return value of `snprintf` when the complete output has `n` characters:
`n`, or `-1` when `n` does not fit an `int`. -/
def snprintf_ret (n : Nat) : Int := if (n : Int) ≤ INT_MAX then (n : Int) else -1

/-- The test `ret == -1 || ret >= (int)sizeof(expandedfilter)` after an
`snprintf` whose complete output has `n` characters, `size` being
`sizeof(expandedfilter)`. -/
def snprintf_overflows (size n : Nat) : Bool :=
  snprintf_ret n == -1 || decide (snprintf_ret n ≥ int_cast size)

/-- The text that the first conversion `%s` of
`snprintf(expandedfilter, size, "%s...", expandedfilter, ...)` produces, `buf`
being the content of `expandedfilter` before the call: `buf` itself on a
library that keeps the destination, nothing on a library that clears it. -/
def snprintf_source (o : libc_overlap) (buf : List Char) : List Char :=
  match o with
  | .kept => buf
  | .cleared => []

/-- The `for` loop of `table_ldap_expandfilter` over the rest of the template,
`buf` being the content of `expandedfilter`.  The complete output of
`snprintf(expandedfilter, size, "%s%s", expandedfilter, key)` is what the
library reads from the destination followed by `key`, that of
`snprintf(expandedfilter, size, "%s%c", expandedfilter, c)` the same followed
by `c`; the value returned is its length, and when the test on that value
passes the output is the new content of the buffer.  `none` is `return NULL`.
At the end of the template `m_ldapfilter[i + 1]` is the terminator, not `k`. -/
def expandfilter_loop (o : libc_overlap) (size : Nat) (key : List Char) :
    List Char → List Char → Option (List Char)
  | [], buf => some buf
  | c :: rest, buf =>
    if c = '%' then
      match rest with
      | [] => some buf
      | c2 :: rest2 =>
        if c2 = 'k' then
          if snprintf_overflows size (snprintf_source o buf ++ key).length then none
          else expandfilter_loop o size key rest2 (snprintf_source o buf ++ key)
        else expandfilter_loop o size key (c2 :: rest2) buf
    else
      if snprintf_overflows size (snprintf_source o buf ++ [c]).length then none
      else expandfilter_loop o size key rest (snprintf_source o buf ++ [c])

/-- The function `table_ldap_expandfilter`: `none` is `NULL`. -/
def table_ldap_expandfilter (host : Host) (hdl : ldaphandle) (key : List Char) :
    Option (List Char) :=
  expandfilter_loop host.overlap (host.MAX_LDAP_FILTERLEN * 2) key hdl.conf.m_ldapfilter []

/-! ## The library calls made on a session -/

/-- Modelled from the spec: `aldap_search` of `aldap.c`, which is not in
`table_ldap.c`.  The request takes the next message id, which becomes the
outstanding id of the session; the value returned is that id, or `-1` when the
request could not be written.  Every call is recorded in `searches`. -/
def aldap_search (host : Host) (ldap : aldap) (req : search_request) : Int × aldap :=
  let ldap1 := { ldap with msgid := ldap.msgid + 1, searches := ldap.searches ++ [req] }
  if host.aldap_write ldap1.msgid then ((ldap1.msgid : Int), ldap1) else (-1, ldap1)

/-- Modelled from the spec: `aldap_bind` of `aldap.c`, which is not in
`table_ldap.c`.  A simple bind request with the next message id; the value
returned is that id, or `-1` when the request could not be written. -/
def aldap_bind (host : Host) (ldap : aldap) (binddn bindcred : List Char) : Int × aldap :=
  let ldap1 := { ldap with msgid := ldap.msgid + 1, binds := ldap.binds ++ [(binddn, bindcred)] }
  if host.aldap_write ldap1.msgid then ((ldap1.msgid : Int), ldap1) else (-1, ldap1)

/-- Modelled from the spec: `aldap_freemsg` disposes of a message; the call is
recorded in `freed`. -/
def aldap_freemsg (ldap : aldap) (m : aldap_message) : aldap :=
  { ldap with freed := ldap.freed ++ [m] }

/-- Modelled from the spec: `aldap_close` terminates the connection of the
session; the call is counted in `closed`. -/
def aldap_close (ldap : aldap) : aldap :=
  { ldap with closed := ldap.closed + 1 }

/-- Modelled from the spec: `aldap_init` allocates the session of a connected
descriptor, no request sent yet. -/
def aldap_init (fd : Int) : aldap := ⟨fd, 0, [], [], [], 0⟩

/-- Modelled from the spec: the host's `expand_insert`, which is not in
`table_ldap.c`.  The expansion list is an insertion-ordered sequence of
nodes: a node is added at its end. -/
def expand_insert (expand : List expandnode) (node : expandnode) : List expandnode :=
  expand ++ [node]

/-! ## `table_ldap_alias` and `table_ldap_virtual` -/

/-- What a lookup leaves in the caller's `*retp`: untouched, or a stored
pointer (`none` for `NULL`). -/
inductive retp_state (α : Type) where
  | unwritten
  | written (value : Option α)
  deriving DecidableEq, Repr

/-- The outcome of a lookup: the value returned, the caller's `*retp`, and the
session afterwards. -/
structure lookup_result (α : Type) where
  ret : Int
  retp : retp_state α
  aldap : aldap
  deriving DecidableEq, Repr

/-- The arguments both lookups give to `aldap_search`: the base DN of the
configuration, subtree scope, the expanded filter, the one configured
attribute, no limits, and the page cursor `pg`. -/
def lookup_request (conf : ldap_conf) (expandedfilter : List Char)
    (pg : Option aldap_page_control) : search_request :=
  ⟨conf.m_ldapbasedn, .LDAP_SCOPE_SUBTREE, expandedfilter, [conf.m_ldapattr], 0, 0, 0, pg⟩

/-- The assignment to `pg` at a search-result message:
`m->page != NULL && m->page->cookie_len != 0 ? m->page : NULL`. -/
def next_page (m : aldap_message) : Option aldap_page_control :=
  match m.page with
  | some p => if p.cookie_len ≠ 0 then some p else none
  | none => none

/-- The `for` loop of `table_ldap_alias` over the values `ldapattrsp[i]` of one
entry; `none` is `goto error`. -/
def alias_values (host : Host) : List (List Char) → table_alias → Option table_alias
  | [], t => some t
  | v :: vs, t =>
    match host.alias_parse v with
    | none => none
    | some expnode =>
      alias_values host vs ⟨expand_insert t.expand expnode, t.nbnodes + 1⟩

/-- The two nested loops of `table_ldap_alias` from the first `aldap_parse`
on, after a search request has been sent.  The list holds the messages that the
following calls of `aldap_parse` return, the empty list standing for `NULL`.
`pg` is `NULL` whenever `aldap_parse` is called, so when it returns `NULL` the
outer loop ends too; at a search-result message with a cookie the outer loop
issues the next request and the inner loop starts again. -/
def alias_loop (host : Host) (conf : ldap_conf) (expandedfilter : List Char) :
    List aldap_message → aldap → table_alias → lookup_result table_alias
  | [], ldap, t => ⟨1, .written (some t), ldap⟩
  | m :: rest, ldap, t =>
    if (ldap.msgid : Int) ≠ m.msgid then
      ⟨-1, .unwritten, aldap_freemsg ldap m⟩
    else if m.message_type = .LDAP_RES_SEARCH_RESULT then
      match next_page m with
      | none => ⟨1, .written (some t), aldap_freemsg ldap m⟩
      | some pg =>
        let sr := aldap_search host (aldap_freemsg ldap m)
          (lookup_request conf expandedfilter (some pg))
        if sr.1 = -1 then ⟨-1, .unwritten, sr.2⟩
        else alias_loop host conf expandedfilter rest sr.2 t
    else if m.message_type ≠ .LDAP_RES_SEARCH_ENTRY then
      ⟨-1, .unwritten, aldap_freemsg ldap m⟩
    else
      match host.aldap_match_attr m conf.m_ldapattr with
      | none => ⟨-1, .unwritten, aldap_freemsg ldap m⟩
      | some ldapattrsp =>
        match alias_values host ldapattrsp t with
        | none => ⟨-1, .unwritten, aldap_freemsg ldap m⟩
        | some t2 => alias_loop host conf expandedfilter rest (aldap_freemsg ldap m) t2

/-- The function `table_ldap_alias`, on the messages the session will
receive. -/
def table_ldap_alias (host : Host) (hdl : ldaphandle) (key : List Char)
    (inbox : List aldap_message) : lookup_result table_alias :=
  match table_ldap_expandfilter host hdl key with
  | none => ⟨-1, .unwritten, hdl.aldap⟩
  | some expandedfilter =>
    let sr := aldap_search host hdl.aldap (lookup_request hdl.conf expandedfilter none)
    if sr.1 = -1 then ⟨-1, .unwritten, sr.2⟩
    else alias_loop host hdl.conf expandedfilter inbox sr.2 ⟨[], 0⟩

/-- The `for` loop of `table_ldap_virtual` over the values of one entry. -/
def virtual_values (host : Host) : List (List Char) → table_virtual → Option table_virtual
  | [], t => some t
  | v :: vs, t =>
    match host.alias_parse v with
    | none => none
    | some expnode =>
      virtual_values host vs ⟨expand_insert t.expand expnode, t.nbnodes + 1⟩

/-- The two nested loops of `table_ldap_virtual`, read as `alias_loop`. -/
def virtual_loop (host : Host) (conf : ldap_conf) (expandedfilter : List Char) :
    List aldap_message → aldap → table_virtual → lookup_result table_virtual
  | [], ldap, t => ⟨1, .written (some t), ldap⟩
  | m :: rest, ldap, t =>
    if (ldap.msgid : Int) ≠ m.msgid then
      ⟨-1, .unwritten, aldap_freemsg ldap m⟩
    else if m.message_type = .LDAP_RES_SEARCH_RESULT then
      match next_page m with
      | none => ⟨1, .written (some t), aldap_freemsg ldap m⟩
      | some pg =>
        let sr := aldap_search host (aldap_freemsg ldap m)
          (lookup_request conf expandedfilter (some pg))
        if sr.1 = -1 then ⟨-1, .unwritten, sr.2⟩
        else virtual_loop host conf expandedfilter rest sr.2 t
    else if m.message_type ≠ .LDAP_RES_SEARCH_ENTRY then
      ⟨-1, .unwritten, aldap_freemsg ldap m⟩
    else
      match host.aldap_match_attr m conf.m_ldapattr with
      | none => ⟨-1, .unwritten, aldap_freemsg ldap m⟩
      | some ldapattrsp =>
        match virtual_values host ldapattrsp t with
        | none => ⟨-1, .unwritten, aldap_freemsg ldap m⟩
        | some t2 => virtual_loop host conf expandedfilter rest (aldap_freemsg ldap m) t2

/-- The function `table_ldap_virtual`, on the messages the session will
receive.  The filter is expanded first; a key without `@` then stores `NULL`
and returns 1 before any request. -/
def table_ldap_virtual (host : Host) (hdl : ldaphandle) (key : List Char)
    (inbox : List aldap_message) : lookup_result table_virtual :=
  match table_ldap_expandfilter host hdl key with
  | none => ⟨-1, .unwritten, hdl.aldap⟩
  | some expandedfilter =>
    if '@' ∉ key then ⟨1, .written none, hdl.aldap⟩
    else
      let sr := aldap_search host hdl.aldap (lookup_request hdl.conf expandedfilter none)
      if sr.1 = -1 then ⟨-1, .unwritten, sr.2⟩
      else virtual_loop host hdl.conf expandedfilter inbox sr.2 ⟨[], 0⟩

/-! ## `table_ldap_open` -/

/-- The address families `ldap_client_connect` tells apart. -/
inductive address_family where
  | AF_INET
  | AF_INET6
  | AF_OTHER (n : Nat)
  deriving DecidableEq, Repr

/-- One `struct addrinfo` of the list `getaddrinfo` returns, with the values
`socket` and `connect` return for it (`socket_ret` a descriptor or `-1`,
`connect_ret` 0 when the connection is made). -/
structure addrinfo where
  ai_family : address_family
  socket_ret : Int
  connect_ret : Int
  deriving DecidableEq, Repr

/-- The network as `ldap_client_connect` sees it: `aldap_parse_url` (its return
value and the host of the URL) and `getaddrinfo` (its error code and list). -/
structure network where
  aldap_parse_url : List Char → Int × List Char
  getaddrinfo : List Char → Int × List addrinfo

/-- The `for` loop of `ldap_client_connect` over the candidates, `fd` being the
last descriptor obtained and `closed` the descriptors given to `close`.  The
result is the connected descriptor, or `none` once the label `err` is passed. -/
def connect_loop : List addrinfo → Int → List Int → Option Int × List Int
  | [], fd, closed => (none, if fd ≠ -1 then closed ++ [fd] else closed)
  | res :: rest, fd, closed =>
    if res.ai_family ≠ .AF_INET ∧ res.ai_family ≠ .AF_INET6 then
      connect_loop rest fd closed
    else if res.socket_ret = -1 then connect_loop rest res.socket_ret closed
    else if res.connect_ret = 0 then (some res.socket_ret, closed)
    else connect_loop rest res.socket_ret (closed ++ [res.socket_ret])

/-- The function `ldap_client_connect`: the session of the first candidate
that connects, and the descriptors it closed. -/
def ldap_client_connect (net : network) (addr : ldap_conf) : Option aldap × List Int :=
  let lu := net.aldap_parse_url addr.url
  if lu.1 ≠ 1 then (none, [])
  else
    let gai := net.getaddrinfo lu.2
    if gai.1 ≠ 0 then (none, [])
    else
      match connect_loop gai.2 (-1) [] with
      | (some fd, closed) => (some (aldap_init fd), closed)
      | (none, closed) => (none, closed)

/-- The function `ldapconf_findbyname` over the list `ldap_confs`. -/
def ldapconf_findbyname (ldap_confs : List ldap_conf) (identifier : List Char) :
    Option ldap_conf :=
  ldap_confs.find? (fun ldapconf => decide (ldapconf.identifier = identifier))

/-- What `table_ldap_open` reads besides its table: the list `ldap_confs`,
the function `ldap_parse_configuration` (declared in `table_ldap.c`, defined
elsewhere) and the network. -/
structure open_env where
  ldap_confs : List ldap_conf
  ldap_parse_configuration : List Char → Option ldap_conf
  net : network

/-- The outcome of `table_ldap_open`: the handle returned (`none` for `NULL`),
the session `ldap_client_connect` created, as the function left it, and the
descriptors closed while connecting. -/
structure open_result where
  handle : Option ldaphandle
  session : Option aldap
  closed_fds : List Int
  deriving DecidableEq, Repr

/-- The configuration `table_ldap_open` works with: the registered one of that
name, else the freshly parsed one. -/
def open_conf (env : open_env) (t_config : List Char) : Option ldap_conf :=
  match ldapconf_findbyname env.ldap_confs t_config with
  | some ldapconf => some ldapconf
  | none => env.ldap_parse_configuration t_config

/-- The function `table_ldap_open` for a table whose `t_config` is given, on
the messages the new session will receive. -/
def table_ldap_open (host : Host) (env : open_env) (t_config : List Char)
    (inbox : List aldap_message) : open_result :=
  match open_conf env t_config with
  | none => ⟨none, none, []⟩
  | some ldapconf =>
    match ldap_client_connect env.net ldapconf with
    | (none, closed) => ⟨none, none, closed⟩
    | (some ldap, closed) =>
      let br := aldap_bind host ldap ldapconf.username ldapconf.password
      if br.1 = -1 then ⟨none, some (aldap_close br.2), closed⟩
      else
        match inbox with
        | [] => ⟨none, some (aldap_close br.2), closed⟩
        | message :: _ =>
          match message.rescode with
          | .LDAP_SUCCESS => ⟨some ⟨ldapconf, br.2⟩, some br.2, closed⟩
          | .LDAP_INVALID_CREDENTIALS =>
            ⟨none, some (aldap_freemsg (aldap_close br.2) message), closed⟩
          | .LDAP_OTHER _ =>
            ⟨none, some (aldap_freemsg (aldap_close br.2) message), closed⟩

/-! ## Response streams -/

/-- One page of a paged search as the server sends it: search-entry messages
and the search-result message that ends the page. -/
structure page where
  entries : List aldap_message
  result : aldap_message
  deriving DecidableEq, Repr

/-- The messages of a sequence of pages, in the order they are received. -/
def response_stream : List page → List aldap_message
  | [] => []
  | p :: ps => p.entries ++ p.result :: response_stream ps

/-- A search entry that answers request `id`, carries attribute `attr`, and
whose values all parse. -/
def entry_ok (host : Host) (attr : List Char) (id : Nat) (m : aldap_message) : Bool :=
  decide (m.msgid = (id : Int)) && decide (m.message_type = .LDAP_RES_SEARCH_ENTRY) &&
    match host.aldap_match_attr m attr with
    | some vs => vs.all (fun v => (host.alias_parse v).isSome)
    | none => false

/-- A page that answers request `id`: entries that are all `entry_ok`, then a
search-result message with that id. -/
def page_ok (host : Host) (attr : List Char) (id : Nat) (p : page) : Bool :=
  p.entries.all (entry_ok host attr id) && decide (p.result.msgid = (id : Int)) &&
    decide (p.result.message_type = .LDAP_RES_SEARCH_RESULT)

/-- Pages that answer the requests `id`, `id + 1`, ... and each end with a
non-empty cookie, the follow-up request of each being written. -/
def continued (host : Host) (attr : List Char) : Nat → List page → Bool
  | _, [] => true
  | id, p :: ps =>
    page_ok host attr id p && (next_page p.result).isSome && host.aldap_write (id + 1) &&
      continued host attr (id + 1) ps

/-- A well-formed stream of at least one page, the first answering request
`id`: every page is `page_ok` for its request, and a page ends with a non-empty
cookie exactly when it is not the last, the follow-up request being written. -/
def well_formed (host : Host) (attr : List Char) : Nat → List page → Bool
  | _, [] => false
  | id, [p] => page_ok host attr id p && (next_page p.result).isNone
  | id, p :: q :: ps =>
    page_ok host attr id p && (next_page p.result).isSome && host.aldap_write (id + 1) &&
      well_formed host attr (id + 1) (q :: ps)

/-- The parsed values of the configured attribute of one entry. -/
def entry_values (host : Host) (attr : List Char) (m : aldap_message) : List expandnode :=
  match host.aldap_match_attr m attr with
  | some vs => vs.filterMap host.alias_parse
  | none => []

/-- The parsed values of all entries of the pages, page after page. -/
def pages_values (host : Host) (attr : List Char) : List page → List expandnode
  | [] => []
  | p :: ps =>
    (p.entries.map (entry_values host attr)).flatten ++ pages_values host attr ps

/-- The page cursors of the requests a lookup issues for the pages: none for
the first, then the page control of each search-result message but the last. -/
def cursors (pages : List page) : List (Option aldap_page_control) :=
  none :: pages.dropLast.map (fun p => p.result.page)

/-! ## Reference notions for the filter template -/

/-- The number of positions of the template at which the placeholder `%k` starts. -/
def placeholder_count : List Char → Nat
  | [] => 0
  | c :: rest =>
    (if c = '%' ∧ rest.head? = some 'k' then 1 else 0) + placeholder_count rest

/-- The template with its first placeholder `%k` replaced by the key and
every other character kept. -/
def replace_placeholder (key : List Char) : List Char → List Char
  | [] => []
  | c :: rest =>
    if c = '%' ∧ rest.head? = some 'k' then key ++ rest.tail
    else c :: replace_placeholder key rest

/-- The text that the scan of `table_ldap_expandfilter` produces when every
`snprintf` appends and the buffer never fills: the loop of the function on a
library that keeps the destination, without its length tests. -/
def expansion (key : List Char) : List Char → List Char
  | [] => []
  | c :: rest =>
    if c = '%' then
      match rest with
      | [] => []
      | c2 :: rest2 =>
        if c2 = 'k' then key ++ expansion key rest2
        else expansion key (c2 :: rest2)
    else c :: expansion key rest

/-- A host for examples: `MAX_LDAP_FILTERLEN` is 1024, `alias_parse` accepts
every non-empty text, `aldap_match_attr` finds an attribute by its exact name,
every request is written, and the C library keeps the destination of an
`snprintf` that reads it. -/
def demo_host : Host where
  MAX_LDAP_FILTERLEN := 1024
  alias_parse := fun v => if v = [] then none else some ⟨0, v⟩
  aldap_match_attr := fun m a => m.attrs.lookup a
  aldap_write := fun _ => true
  overlap := .kept

/-- The host `demo_host` with a C library that clears the destination of an
`snprintf` before it formats, as glibc does. -/
def demo_host_cleared : Host where
  MAX_LDAP_FILTERLEN := 1024
  alias_parse := fun v => if v = [] then none else some ⟨0, v⟩
  aldap_match_attr := fun m a => m.attrs.lookup a
  aldap_write := fun _ => true
  overlap := .cleared

/-- A fresh session on descriptor 3. -/
def demo_aldap : aldap := ⟨3, 0, [], [], [], 0⟩

/-- A handle for examples whose configuration has the given filter template. -/
def demo_handle (filter : List Char) : ldaphandle :=
  ⟨⟨"ldap1".toList, "ldap://localhost".toList, "cn=smtpd".toList, "secret".toList,
    "dc=example".toList, filter, "mail".toList⟩, demo_aldap⟩

/-- The `struct table_virtual` with the content of a `struct table_alias`. -/
def table_alias.as_virtual (t : table_alias) : table_virtual := ⟨t.expand, t.nbnodes⟩

/-- The outcome of an alias lookup read as the outcome of a virtual lookup. -/
def lookup_result.as_virtual (r : lookup_result table_alias) : lookup_result table_virtual :=
  ⟨r.ret,
    match r.retp with
    | .unwritten => .unwritten
    | .written v => .written (v.map table_alias.as_virtual),
    r.aldap⟩

/-- A search-entry message with the given id and values of attribute `mail`. -/
def demo_entry (id : Int) (values : List (List Char)) : aldap_message :=
  ⟨id, .LDAP_RES_SEARCH_ENTRY, none, .LDAP_SUCCESS, [("mail".toList, values)]⟩

/-- A search-result message with the given id and cookie. -/
def demo_result (id : Int) (cookie : List Nat) : aldap_message :=
  ⟨id, .LDAP_RES_SEARCH_RESULT, some ⟨0, cookie⟩, .LDAP_SUCCESS, []⟩

/-- A bind response with the given result code. -/
def demo_bind_response (code : result_code) : aldap_message :=
  ⟨1, .LDAP_RES_BIND, none, code, []⟩

/-- An environment for `table_ldap_open`: one registered configuration, and a
network on which the first candidate refuses the connection and the second
accepts it on descriptor 5. -/
def demo_env : open_env where
  ldap_confs := [(demo_handle "(mail=%k)".toList).conf]
  ldap_parse_configuration := fun _ => none
  net :=
    { aldap_parse_url := fun _ => (1, "localhost".toList)
      getaddrinfo := fun _ => (0, [⟨.AF_INET6, 4, -1⟩, ⟨.AF_INET, 5, 0⟩]) }

/-! ## `table_ldap_config` and `table_ldap_lookup` -/

/-- The `enum table_type` of `smtpd.h`. -/
inductive table_type where
  | T_NONE
  | T_DYNAMIC
  | T_LIST
  | T_HASH
  deriving DecidableEq, Repr

/-- The host's `struct table` as `table_ldap_config` uses it for `cfg`: the
type of the table and its keys with their values. -/
structure config_table where
  t_type : table_type
  entries : List (List Char × List Char)
  deriving DecidableEq, Repr

/-- Modelled from the spec: the host's `table_get`, which is not in
`table_ldap.c`.  The value stored under the key in the key/value map, `none`
for `NULL`. -/
def table_get (cfg : config_table) (key : List Char) : Option (List Char) :=
  cfg.entries.lookup key

/-- The outcome of `table_ldap_config`: the value returned, the configuration
given to `table_set_config` (`none` when it is not called), and the number of
`table_destroy` calls on `cfg`. -/
structure config_result where
  ret : Int
  attached : Option config_table
  destroyed : Nat
  deriving DecidableEq, Repr

/-- The function `table_ldap_config`.  `config` is `none` for `NULL`;
`config_parse` stands for the host's `table_config_parser`, giving the table
it fills, or `none` when it returns 0. -/
def table_ldap_config (config_parse : List Char → Option config_table)
    (config : Option (List Char)) : config_result :=
  match config with
  | none => ⟨0, none, 0⟩
  | some text =>
    match config_parse text with
    | none => ⟨0, none, 1⟩
    | some cfg =>
      if cfg.t_type ≠ .T_HASH then ⟨0, none, 1⟩
      else
        match table_get cfg "url".toList with
        | none => ⟨0, none, 1⟩
        | some _ => ⟨1, some cfg, 0⟩

/-- The function `table_ldap_update`. -/
def table_ldap_update : Int := 1

/-- The function `table_ldap_close`: the session after `aldap_close`. -/
def table_ldap_close (hdl : ldaphandle) : aldap := aldap_close hdl.aldap

/-- The `enum table_service` of `smtpd.h`: the two kinds `table_ldap_lookup`
tells apart, every other kind being `K_OTHER`. -/
inductive table_service where
  | K_ALIAS
  | K_VIRTUAL
  | K_OTHER (n : Nat)
  deriving DecidableEq, Repr

/-- What `*retp` points to after `table_ldap_lookup`: a `struct table_alias`
or a `struct table_virtual`. -/
inductive lookup_table where
  | alias (t : table_alias)
  | virtual (t : table_virtual)
  deriving DecidableEq, Repr

/-- The state of `*retp` with the stored pointer read through `f`. -/
def retp_state.map {α β : Type} (f : α → β) : retp_state α → retp_state β
  | .unwritten => .unwritten
  | .written v => .written (v.map f)

/-- The function `table_ldap_lookup`. -/
def table_ldap_lookup (host : Host) (hdl : ldaphandle) (key : List Char)
    (service : table_service) (inbox : List aldap_message) : lookup_result lookup_table :=
  match service with
  | .K_ALIAS =>
    ⟨(table_ldap_alias host hdl key inbox).ret,
      (table_ldap_alias host hdl key inbox).retp.map .alias,
      (table_ldap_alias host hdl key inbox).aldap⟩
  | .K_VIRTUAL =>
    ⟨(table_ldap_virtual host hdl key inbox).ret,
      (table_ldap_virtual host hdl key inbox).retp.map .virtual,
      (table_ldap_virtual host hdl key inbox).aldap⟩
  | .K_OTHER _ => ⟨0, .unwritten, hdl.aldap⟩

/-! ## The reference scan of a template -/

/-- The scan of a template from left to right as the specification words it:
each `%k` is replaced by the key, a `%` not followed by `k` is dropped and the
character after it is processed normally, every other character is copied. -/
def reference_scan (key : List Char) : List Char → List Char
  | [] => []
  | '%' :: 'k' :: rest => key ++ reference_scan key rest
  | '%' :: rest => reference_scan key rest
  | c :: rest => c :: reference_scan key rest

/-- A parser for examples, which fills the table with the given content
whatever the text, or fails when none is given. -/
def demo_config_parse (parsed : Option config_table) : List Char → Option config_table :=
  fun _ => parsed

/-! ## Properties of `table_ldap_expandfilter` -/

theorem not_overflows_lt {size n : Nat} (h : snprintf_overflows size n = false) :
    n < size := by
  unfold snprintf_overflows snprintf_ret int_cast INT_MAX at h
  simp only [Bool.or_eq_false_iff, beq_eq_false_iff_ne, decide_eq_false_iff_not] at h
  obtain ⟨h1, h2⟩ := h
  split at h1
  · rename_i hn
    rw [if_pos hn] at h2
    omega
  · exact absurd rfl h1

theorem not_overflows_of_lt {size n : Nat} (hsize : size ≤ 2147483647) (h : n < size) :
    snprintf_overflows size n = false := by
  unfold snprintf_overflows snprintf_ret int_cast INT_MAX
  simp only [Bool.or_eq_false_iff, beq_eq_false_iff_ne, decide_eq_false_iff_not]
  have hn : (n : Int) ≤ 2147483647 := by omega
  rw [if_pos hn]
  constructor <;> omega

theorem overflows_of_ge {size n : Nat} (h : size ≤ n) :
    snprintf_overflows size n = true := by
  cases hov : snprintf_overflows size n with
  | true => rfl
  | false => exact absurd (not_overflows_lt hov) (by omega)

theorem snprintf_source_length_le (o : libc_overlap) (buf : List Char) :
    (snprintf_source o buf).length ≤ buf.length := by
  cases o <;> simp [snprintf_source]

theorem expandfilter_loop_other (o : libc_overlap) (size : Nat) (key : List Char) (c : Char)
    (rest buf : List Char) (hc : c ≠ '%') :
    expandfilter_loop o size key (c :: rest) buf =
      if snprintf_overflows size (snprintf_source o buf ++ [c]).length then none
      else expandfilter_loop o size key rest (snprintf_source o buf ++ [c]) := by
  cases rest with
  | nil => rw [expandfilter_loop.eq_2]; simp [hc]
  | cons c2 rest2 => rw [expandfilter_loop.eq_3]; simp [hc]

theorem expandfilter_loop_placeholder (o : libc_overlap) (size : Nat)
    (key rest buf : List Char) :
    expandfilter_loop o size key ('%' :: 'k' :: rest) buf =
      if snprintf_overflows size (snprintf_source o buf ++ key).length then none
      else expandfilter_loop o size key rest (snprintf_source o buf ++ key) := by
  rw [expandfilter_loop.eq_3]; simp

theorem expandfilter_loop_percent (o : libc_overlap) (size : Nat) (key : List Char)
    (c2 : Char) (rest buf : List Char) (hc : c2 ≠ 'k') :
    expandfilter_loop o size key ('%' :: c2 :: rest) buf =
      expandfilter_loop o size key (c2 :: rest) buf := by
  rw [expandfilter_loop.eq_3]; simp [hc]

theorem expandfilter_loop_percent_end (o : libc_overlap) (size : Nat) (key buf : List Char) :
    expandfilter_loop o size key ['%'] buf = some buf := by
  rw [expandfilter_loop.eq_2]; simp

theorem expansion_other (key : List Char) (c : Char) (rest : List Char) (hc : c ≠ '%') :
    expansion key (c :: rest) = c :: expansion key rest := by
  cases rest with
  | nil => rw [expansion.eq_2]; simp [hc, expansion.eq_1]
  | cons c2 rest2 => rw [expansion.eq_3]; simp [hc]

theorem expansion_placeholder (key rest : List Char) :
    expansion key ('%' :: 'k' :: rest) = key ++ expansion key rest := by
  rw [expansion.eq_3]; simp

theorem expansion_percent (key : List Char) (c2 : Char) (rest : List Char) (hc : c2 ≠ 'k') :
    expansion key ('%' :: c2 :: rest) = expansion key (c2 :: rest) := by
  rw [expansion.eq_3]; simp [hc]

theorem expansion_percent_end (key : List Char) : expansion key ['%'] = [] := by
  rw [expansion.eq_2]; simp

/-- On either library, a filter the loop returns is shorter than the buffer
size unless nothing was appended. -/
theorem expandfilter_loop_bound (o : libc_overlap) (size : Nat) (key : List Char) :
    ∀ (tpl buf out : List Char), expandfilter_loop o size key tpl buf = some out →
      out = buf ∨ out.length < size := by
  intro tpl
  induction tpl using expansion.induct key with
  | case1 =>
    intro buf out h
    simp only [expandfilter_loop.eq_1, Option.some.injEq] at h
    exact Or.inl h.symm
  | case2 =>
    intro buf out h
    simp only [expandfilter_loop_percent_end, Option.some.injEq] at h
    exact Or.inl h.symm
  | case3 rest2 ih =>
    intro buf out h
    rw [expandfilter_loop_placeholder] at h
    split at h
    · exact absurd h (by simp)
    · rename_i hov
      have hlt := not_overflows_lt (Bool.eq_false_iff.mpr hov)
      rcases ih _ _ h with h2 | h2
      · right; rw [h2]; exact hlt
      · exact Or.inr h2
  | case4 c2 rest2 hc2 ih =>
    intro buf out h
    rw [expandfilter_loop_percent _ _ _ _ _ _ hc2] at h
    exact ih _ _ h
  | case5 c rest hc ih =>
    intro buf out h
    rw [expandfilter_loop_other _ _ _ _ _ _ hc] at h
    split at h
    · exact absurd h (by simp)
    · rename_i hov
      have hlt := not_overflows_lt (Bool.eq_false_iff.mpr hov)
      rcases ih _ _ h with h2 | h2
      · right; rw [h2]; exact hlt
      · exact Or.inr h2

/-- On a library that keeps the destination, a filter the loop returns is the
buffer followed by the expansion of the rest of the template. -/
theorem expandfilter_loop_some (size : Nat) (key : List Char) :
    ∀ (tpl buf out : List Char),
      expandfilter_loop .kept size key tpl buf = some out →
      out = buf ++ expansion key tpl ∧ (out = buf ∨ out.length < size) := by
  intro tpl
  induction tpl using expansion.induct key with
  | case1 =>
    intro buf out h
    simp only [expandfilter_loop.eq_1, Option.some.injEq] at h
    simp [expansion.eq_1, h]
  | case2 =>
    intro buf out h
    simp only [expandfilter_loop_percent_end, Option.some.injEq] at h
    simp [expansion_percent_end, h]
  | case3 rest2 ih =>
    intro buf out h
    have hb := expandfilter_loop_bound .kept size key _ _ _ h
    rw [expandfilter_loop_placeholder] at h
    split at h
    · exact absurd h (by simp)
    · obtain ⟨h1, _⟩ := ih _ _ h
      exact ⟨by simp [expansion_placeholder, h1, snprintf_source], hb⟩
  | case4 c2 rest2 hc2 ih =>
    intro buf out h
    rw [expandfilter_loop_percent _ _ _ _ _ _ hc2] at h
    obtain ⟨h1, h2⟩ := ih _ _ h
    exact ⟨by rw [expansion_percent _ _ _ hc2]; exact h1, h2⟩
  | case5 c rest hc ih =>
    intro buf out h
    have hb := expandfilter_loop_bound .kept size key _ _ _ h
    rw [expandfilter_loop_other _ _ _ _ _ _ hc] at h
    split at h
    · exact absurd h (by simp)
    · obtain ⟨h1, _⟩ := ih _ _ h
      exact ⟨by simp [expansion_other _ _ _ hc, h1, snprintf_source], hb⟩

/-- On a library that keeps the destination, when the buffer size fits an
`int` and the buffer followed by the expansion of the rest of the template is
shorter than the buffer size, the loop returns that text. -/
theorem expandfilter_loop_fits (size : Nat) (key : List Char) (hsize : size ≤ 2147483647) :
    ∀ (tpl buf : List Char), (buf ++ expansion key tpl).length < size →
      expandfilter_loop .kept size key tpl buf = some (buf ++ expansion key tpl) := by
  intro tpl
  induction tpl using expansion.induct key with
  | case1 => intro buf _; simp [expandfilter_loop.eq_1, expansion.eq_1]
  | case2 => intro buf _; simp [expandfilter_loop_percent_end, expansion_percent_end]
  | case3 rest2 ih =>
    intro buf h
    rw [expansion_placeholder] at h ⊢
    have hk : (snprintf_source .kept buf ++ key).length < size := by
      simp only [List.length_append, snprintf_source] at h ⊢; omega
    rw [expandfilter_loop_placeholder, not_overflows_of_lt hsize hk]
    simp only [Bool.false_eq_true, if_false, snprintf_source]
    rw [← List.append_assoc] at h ⊢
    exact ih _ h
  | case4 c2 rest2 hc2 ih =>
    intro buf h
    rw [expansion_percent _ _ _ hc2] at h ⊢
    rw [expandfilter_loop_percent _ _ _ _ _ _ hc2]
    exact ih _ h
  | case5 c rest hc ih =>
    intro buf h
    rw [expansion_other _ _ _ hc] at h ⊢
    have hk : (snprintf_source .kept buf ++ [c]).length < size := by
      simp only [List.length_append, List.length_cons, List.length_nil,
        snprintf_source] at h ⊢
      omega
    rw [expandfilter_loop_other _ _ _ _ _ _ hc, not_overflows_of_lt hsize hk]
    simp only [Bool.false_eq_true, if_false, snprintf_source]
    have e : buf ++ c :: expansion key rest = (buf ++ [c]) ++ expansion key rest := by simp
    rw [e] at h ⊢
    exact ih _ h

/-- On either library, when the buffer size fits an `int` and the buffer
followed by the expansion of the rest of the template is shorter than the
buffer size, the loop returns a filter: each output is no longer than the
text appended so far. -/
theorem expandfilter_loop_succeeds (o : libc_overlap) (size : Nat) (key : List Char)
    (hsize : size ≤ 2147483647) :
    ∀ (tpl buf : List Char), buf.length + (expansion key tpl).length < size →
      ∃ out, expandfilter_loop o size key tpl buf = some out := by
  intro tpl
  induction tpl using expansion.induct key with
  | case1 => intro buf _; exact ⟨buf, by rw [expandfilter_loop.eq_1]⟩
  | case2 => intro buf _; exact ⟨buf, by rw [expandfilter_loop_percent_end]⟩
  | case3 rest2 ih =>
    intro buf h
    rw [expansion_placeholder, List.length_append] at h
    have hle := snprintf_source_length_le o buf
    have hk : (snprintf_source o buf ++ key).length < size := by
      rw [List.length_append]; omega
    rw [expandfilter_loop_placeholder, not_overflows_of_lt hsize hk]
    simp only [Bool.false_eq_true, if_false]
    exact ih _ (by rw [List.length_append]; omega)
  | case4 c2 rest2 hc2 ih =>
    intro buf h
    rw [expansion_percent _ _ _ hc2] at h
    rw [expandfilter_loop_percent _ _ _ _ _ _ hc2]
    exact ih _ h
  | case5 c rest hc ih =>
    intro buf h
    rw [expansion_other _ _ _ hc, List.length_cons] at h
    have hle := snprintf_source_length_le o buf
    have hk : (snprintf_source o buf ++ [c]).length < size := by
      simp only [List.length_append, List.length_cons, List.length_nil]; omega
    rw [expandfilter_loop_other _ _ _ _ _ _ hc, not_overflows_of_lt hsize hk]
    simp only [Bool.false_eq_true, if_false]
    exact ih _ (by simp only [List.length_append, List.length_cons, List.length_nil]; omega)

/-- On a library that keeps the destination, the function succeeds, with the
expansion of the template, when the buffer size fits an `int` and the
expansion is shorter than the buffer. -/
theorem expandfilter_fits (host : Host) (hdl : ldaphandle) (key : List Char)
    (hlib : host.overlap = .kept)
    (hsize : host.MAX_LDAP_FILTERLEN * 2 ≤ 2147483647)
    (hlen : (expansion key hdl.conf.m_ldapfilter).length < host.MAX_LDAP_FILTERLEN * 2) :
    table_ldap_expandfilter host hdl key = some (expansion key hdl.conf.m_ldapfilter) := by
  have h := expandfilter_loop_fits _ key hsize hdl.conf.m_ldapfilter [] (by simpa using hlen)
  simpa [table_ldap_expandfilter, hlib] using h

/-- On either library, the function succeeds when the buffer size fits an
`int` and the expansion is shorter than the buffer. -/
theorem expandfilter_succeeds (host : Host) (hdl : ldaphandle) (key : List Char)
    (hsize : host.MAX_LDAP_FILTERLEN * 2 ≤ 2147483647)
    (hlen : (expansion key hdl.conf.m_ldapfilter).length < host.MAX_LDAP_FILTERLEN * 2) :
    ∃ f, table_ldap_expandfilter host hdl key = some f :=
  expandfilter_loop_succeeds host.overlap _ key hsize hdl.conf.m_ldapfilter []
    (by simpa using hlen)

/-- On either library, a filter the function returns is shorter than the
buffer, or empty. -/
theorem expandfilter_bound (host : Host) (hdl : ldaphandle) (key out : List Char)
    (h : table_ldap_expandfilter host hdl key = some out) :
    out = [] ∨ out.length < host.MAX_LDAP_FILTERLEN * 2 :=
  expandfilter_loop_bound _ _ key hdl.conf.m_ldapfilter [] out h

/-- On a library that keeps the destination, a filter the function returns is
the expansion of the template and is shorter than the buffer, or empty. -/
theorem expandfilter_some (host : Host) (hdl : ldaphandle) (key out : List Char)
    (hlib : host.overlap = .kept)
    (h : table_ldap_expandfilter host hdl key = some out) :
    out = expansion key hdl.conf.m_ldapfilter ∧
      (out = [] ∨ out.length < host.MAX_LDAP_FILTERLEN * 2) := by
  unfold table_ldap_expandfilter at h
  rw [hlib] at h
  have h2 := expandfilter_loop_some _ key hdl.conf.m_ldapfilter [] out h
  simpa using h2

/-- On a library that clears the destination, the template `(mail=%k)` comes
back as its last character whenever the key is shorter than the buffer. -/
theorem expandfilter_loop_cleared_mail (size : Nat) (key : List Char)
    (hsize : size ≤ 2147483647) (h1 : 1 < size) (hk : key.length < size) :
    expandfilter_loop .cleared size key "(mail=%k)".toList [] = some [')'] := by
  show expandfilter_loop .cleared size key ['(', 'm', 'a', 'i', 'l', '=', '%', 'k', ')'] [] = _
  have e1 : ∀ c : Char, snprintf_overflows size (snprintf_source .cleared [] ++ [c]).length =
      false := fun c => not_overflows_of_lt hsize (by simpa [snprintf_source] using h1)
  have e2 : ∀ (b : List Char) (c : Char),
      snprintf_overflows size (snprintf_source .cleared b ++ [c]).length = false :=
    fun b c => not_overflows_of_lt hsize (by simpa [snprintf_source] using h1)
  have e3 : ∀ b : List Char,
      snprintf_overflows size (snprintf_source .cleared b ++ key).length = false :=
    fun b => not_overflows_of_lt hsize (by simpa [snprintf_source] using hk)
  rw [expandfilter_loop_other _ _ _ _ _ _ (by decide), e2,
    expandfilter_loop_other _ _ _ _ _ _ (by decide), e2,
    expandfilter_loop_other _ _ _ _ _ _ (by decide), e2,
    expandfilter_loop_other _ _ _ _ _ _ (by decide), e2,
    expandfilter_loop_other _ _ _ _ _ _ (by decide), e2,
    expandfilter_loop_other _ _ _ _ _ _ (by decide), e2,
    expandfilter_loop_placeholder, e3,
    expandfilter_loop_other _ _ _ _ _ _ (by decide), e2, expandfilter_loop.eq_1]
  rfl

/-- Without a placeholder the expansion is the template less its `%`. -/
theorem expansion_no_placeholder (key : List Char) :
    ∀ (tpl : List Char), placeholder_count tpl = 0 →
      expansion key tpl = tpl.filter (fun c => decide (c ≠ '%')) := by
  intro tpl
  induction tpl using expansion.induct key with
  | case1 => intro _; simp [expansion.eq_1]
  | case2 => intro _; simp [expansion_percent_end]
  | case3 rest2 ih => intro h; simp [placeholder_count] at h
  | case4 c2 rest2 hc2 ih =>
    intro h
    simp only [placeholder_count, List.head?_cons, Option.some.injEq, hc2, and_false,
      if_false, Nat.zero_add] at h
    rw [expansion_percent _ _ _ hc2, ih (by simpa [placeholder_count] using h)]
    simp
  | case5 c rest hc ih =>
    intro h
    simp only [placeholder_count, hc, false_and, if_false, Nat.zero_add] at h
    rw [expansion_other _ _ _ hc, ih h]
    simp [hc]

theorem placeholder_count_cons (c : Char) (rest : List Char) :
    placeholder_count (c :: rest) =
      (if c = '%' ∧ rest.head? = some 'k' then 1 else 0) + placeholder_count rest := rfl

/-- A template with a placeholder has a positive placeholder count. -/
theorem placeholder_count_pos (pre post : List Char) :
    0 < placeholder_count (pre ++ '%' :: 'k' :: post) := by
  induction pre with
  | nil => simp [placeholder_count]
  | cons c pre ih => rw [List.cons_append, placeholder_count_cons]; omega

/-- With exactly one placeholder, the expansion is the text before it less its
`%`, the key, and the text after it less its `%`. -/
theorem expansion_one_placeholder (key post : List Char) :
    ∀ (pre : List Char), placeholder_count (pre ++ '%' :: 'k' :: post) = 1 →
      expansion key (pre ++ '%' :: 'k' :: post) =
        pre.filter (fun c => decide (c ≠ '%')) ++ key ++
          post.filter (fun c => decide (c ≠ '%')) := by
  intro pre
  induction pre with
  | nil =>
    intro h
    have hpost : placeholder_count post = 0 := by
      simp [placeholder_count] at h; exact h
    simp [expansion_placeholder, expansion_no_placeholder key post hpost]
  | cons c pre ih =>
    intro h
    have hpos := placeholder_count_pos pre post
    rw [List.cons_append, placeholder_count_cons] at h
    have hrest : placeholder_count (pre ++ '%' :: 'k' :: post) = 1 := by omega
    have hind : ¬ (c = '%' ∧ (pre ++ '%' :: 'k' :: post).head? = some 'k') := by
      intro hc; rw [if_pos hc] at h; omega
    by_cases hc : c = '%'
    · subst hc
      cases pre with
      | nil =>
        simp only [List.nil_append, List.cons_append] at hrest ih ⊢
        rw [expansion_percent key '%' _ (by decide), ih hrest]
        simp
      | cons c2 pre2 =>
        have hc2 : c2 ≠ 'k' := by
          intro e; apply hind; simp [e]
        simp only [List.cons_append] at hrest ih ⊢
        rw [expansion_percent _ _ _ hc2, ih hrest]
        simp
    · simp only [List.cons_append]
      rw [expansion_other _ _ _ hc, ih hrest]
      simp [hc]


/-! ## Properties of the lookup loops -/

theorem virtual_values_eq (host : Host) :
    ∀ (vs : List (List Char)) (t : table_alias),
      virtual_values host vs t.as_virtual =
        (alias_values host vs t).map table_alias.as_virtual := by
  intro vs
  induction vs with
  | nil => intro t; rfl
  | cons v vs ih =>
    intro t
    simp only [virtual_values, alias_values]
    cases host.alias_parse v with
    | none => rfl
    | some expnode => exact ih ⟨expand_insert t.expand expnode, t.nbnodes + 1⟩

/-- The loop of `table_ldap_virtual` computes what the loop of
`table_ldap_alias` computes, in the other table type. -/
theorem virtual_loop_eq (host : Host) (conf : ldap_conf) (f : List Char) :
    ∀ (inbox : List aldap_message) (ldap : aldap) (t : table_alias),
      virtual_loop host conf f inbox ldap t.as_virtual =
        (alias_loop host conf f inbox ldap t).as_virtual := by
  intro inbox
  induction inbox with
  | nil => intro ldap t; rfl
  | cons m rest ih =>
    intro ldap t
    rw [virtual_loop.eq_2, alias_loop.eq_2]
    by_cases h1 : (ldap.msgid : Int) ≠ m.msgid
    · rw [if_pos h1, if_pos h1]; rfl
    rw [if_neg h1, if_neg h1]
    by_cases h2 : m.message_type = .LDAP_RES_SEARCH_RESULT
    · rw [if_pos h2, if_pos h2]
      cases next_page m with
      | none => rfl
      | some pg =>
        simp only []
        split
        · rfl
        · exact ih _ _
    rw [if_neg h2, if_neg h2]
    by_cases h3 : m.message_type ≠ .LDAP_RES_SEARCH_ENTRY
    · rw [if_pos h3, if_pos h3]; rfl
    rw [if_neg h3, if_neg h3]
    cases host.aldap_match_attr m conf.m_ldapattr with
    | none => rfl
    | some vs =>
      simp only []
      rw [virtual_values_eq]
      cases alias_values host vs t with
      | none => rfl
      | some t2 => exact ih _ _

/-- For a key with `@`, `table_ldap_virtual` computes what `table_ldap_alias`
computes, in the other table type. -/
theorem virtual_eq_alias (host : Host) (hdl : ldaphandle) (key : List Char)
    (inbox : List aldap_message) (hkey : '@' ∈ key) :
    table_ldap_virtual host hdl key inbox =
      (table_ldap_alias host hdl key inbox).as_virtual := by
  unfold table_ldap_virtual table_ldap_alias
  cases table_ldap_expandfilter host hdl key with
  | none => rfl
  | some f =>
    simp only [hkey, not_true_eq_false, if_false]
    split
    · rfl
    · exact virtual_loop_eq host hdl.conf f inbox _ ⟨[], 0⟩

/-- When every value parses, the loop over the values appends the parsed
values and counts them. -/
theorem alias_values_all (host : Host) :
    ∀ (vs : List (List Char)) (t : table_alias),
      vs.all (fun v => (host.alias_parse v).isSome) = true →
      alias_values host vs t =
        some ⟨t.expand ++ vs.filterMap host.alias_parse,
          t.nbnodes + (vs.filterMap host.alias_parse).length⟩ := by
  intro vs
  induction vs with
  | nil => intro t _; simp [alias_values]
  | cons v vs ih =>
    intro t h
    simp only [List.all_cons, Bool.and_eq_true] at h
    obtain ⟨hv, hvs⟩ := h
    obtain ⟨n, hn⟩ := Option.isSome_iff_exists.mp hv
    simp only [alias_values, hn, List.filterMap_cons]
    rw [ih _ hvs]
    simp [expand_insert, Nat.add_assoc, Nat.add_comm 1]

/-- One good entry is consumed: its values are appended and the loop goes on. -/
theorem alias_loop_entry (host : Host) (conf : ldap_conf) (f : List Char)
    (m : aldap_message) (rest : List aldap_message) (ldap : aldap) (t : table_alias)
    (h : entry_ok host conf.m_ldapattr ldap.msgid m = true) :
    alias_loop host conf f (m :: rest) ldap t =
      alias_loop host conf f rest (aldap_freemsg ldap m)
        ⟨t.expand ++ entry_values host conf.m_ldapattr m,
          t.nbnodes + (entry_values host conf.m_ldapattr m).length⟩ := by
  unfold entry_ok at h
  simp only [Bool.and_eq_true, decide_eq_true_eq] at h
  obtain ⟨⟨hid, hty⟩, hvals⟩ := h
  rw [alias_loop.eq_2]
  simp only [hid, ne_eq, not_true_eq_false, if_false, hty, reduceCtorEq]
  unfold entry_values
  cases hm : host.aldap_match_attr m conf.m_ldapattr with
  | none => rw [hm] at hvals; exact absurd hvals (by simp)
  | some vs =>
    rw [hm] at hvals
    simp only [alias_values_all host vs t hvals]

/-- Good entries are consumed one after the other: the loop reaches the
message after them with their values appended, the outstanding id and the
requests unchanged. -/
theorem alias_loop_entries (host : Host) (conf : ldap_conf) (f : List Char)
    (rest : List aldap_message) :
    ∀ (entries : List aldap_message) (ldap : aldap) (t : table_alias),
      entries.all (entry_ok host conf.m_ldapattr ldap.msgid) = true →
      ∃ ldap2 : aldap, ldap2.msgid = ldap.msgid ∧ ldap2.searches = ldap.searches ∧
        alias_loop host conf f (entries ++ rest) ldap t =
          alias_loop host conf f rest ldap2
            ⟨t.expand ++ (entries.map (entry_values host conf.m_ldapattr)).flatten,
              t.nbnodes +
                ((entries.map (entry_values host conf.m_ldapattr)).flatten).length⟩ := by
  intro entries
  induction entries with
  | nil => intro ldap t _; exact ⟨ldap, rfl, rfl, by simp⟩
  | cons m ms ih =>
    intro ldap t h
    simp only [List.all_cons, Bool.and_eq_true] at h
    obtain ⟨hm, hms⟩ := h
    obtain ⟨ldap2, h1, h2, h3⟩ := ih (aldap_freemsg ldap m)
      ⟨t.expand ++ entry_values host conf.m_ldapattr m,
        t.nbnodes + (entry_values host conf.m_ldapattr m).length⟩ hms
    refine ⟨ldap2, h1, h2, ?_⟩
    rw [List.cons_append, alias_loop_entry host conf f m _ ldap t hm, h3]
    simp [Nat.add_assoc]

/-- A search-result message with the outstanding id and no cookie ends the
lookup with success and the table built so far. -/
theorem alias_loop_last_result (host : Host) (conf : ldap_conf) (f : List Char)
    (m : aldap_message) (rest : List aldap_message) (ldap : aldap) (t : table_alias)
    (hid : m.msgid = (ldap.msgid : Int))
    (hty : m.message_type = .LDAP_RES_SEARCH_RESULT) (hpg : next_page m = none) :
    alias_loop host conf f (m :: rest) ldap t =
      ⟨1, .written (some t), aldap_freemsg ldap m⟩ := by
  rw [alias_loop.eq_2]
  simp only [hid, ne_eq, not_true_eq_false, if_false, hty, if_true, hpg]

/-- A search-result message with the outstanding id and a cookie makes the
lookup issue the next request, with that page control; when the request is
written the loop goes on under the new id. -/
theorem alias_loop_next_result (host : Host) (conf : ldap_conf) (f : List Char)
    (m : aldap_message) (rest : List aldap_message) (ldap : aldap) (t : table_alias)
    (hid : m.msgid = (ldap.msgid : Int))
    (hty : m.message_type = .LDAP_RES_SEARCH_RESULT) (hpg : (next_page m).isSome = true)
    (hw : host.aldap_write (ldap.msgid + 1) = true) :
    ∃ ldap2 : aldap, ldap2.msgid = ldap.msgid + 1 ∧
      ldap2.searches = ldap.searches ++ [lookup_request conf f m.page] ∧
      alias_loop host conf f (m :: rest) ldap t = alias_loop host conf f rest ldap2 t := by
  obtain ⟨pg, hpg2⟩ := Option.isSome_iff_exists.mp hpg
  have hpage : m.page = some pg := by
    unfold next_page at hpg2
    cases hp : m.page with
    | none => rw [hp] at hpg2; exact absurd hpg2 (by simp)
    | some p =>
      rw [hp] at hpg2
      simp only at hpg2
      split at hpg2
      · exact hpg2
      · exact absurd hpg2 (by simp)
  refine ⟨(aldap_search host (aldap_freemsg ldap m) (lookup_request conf f (some pg))).2,
    ?_, ?_, ?_⟩
  · simp [aldap_search, aldap_freemsg, hw]
  · simp [aldap_search, aldap_freemsg, hw, hpage]
  · rw [alias_loop.eq_2]
    simp only [hid, ne_eq, not_true_eq_false, if_false, hty, if_true, hpg2]
    have hret : (aldap_search host (aldap_freemsg ldap m)
        (lookup_request conf f (some pg))).1 ≠ -1 := by
      simp only [aldap_search, aldap_freemsg, hw, if_true]
      omega
    rw [if_neg hret]

/-- Pages that each end with a cookie are consumed one after the other: the
loop reaches the message after them with all their values appended, one
request issued per page. -/
theorem alias_loop_continued (host : Host) (conf : ldap_conf) (f : List Char)
    (rest : List aldap_message) :
    ∀ (pages : List page) (ldap : aldap) (t : table_alias),
      continued host conf.m_ldapattr ldap.msgid pages = true →
      ∃ ldap2 : aldap, ldap2.msgid = ldap.msgid + pages.length ∧
        ldap2.searches =
          ldap.searches ++ pages.map (fun p => lookup_request conf f p.result.page) ∧
        alias_loop host conf f (response_stream pages ++ rest) ldap t =
          alias_loop host conf f rest ldap2
            ⟨t.expand ++ pages_values host conf.m_ldapattr pages,
              t.nbnodes + (pages_values host conf.m_ldapattr pages).length⟩ := by
  intro pages
  induction pages with
  | nil => intro ldap t _; exact ⟨ldap, rfl, by simp, by simp [response_stream, pages_values]⟩
  | cons p ps ih =>
    intro ldap t h
    simp only [continued, page_ok, Bool.and_eq_true, decide_eq_true_eq] at h
    obtain ⟨⟨⟨⟨⟨hentries, hid⟩, hty⟩, hpg⟩, hw⟩, hps⟩ := h
    obtain ⟨l1, h11, h12, h13⟩ := alias_loop_entries host conf f
      (p.result :: (response_stream ps ++ rest)) p.entries ldap t hentries
    obtain ⟨l2, h21, h22, h23⟩ := alias_loop_next_result host conf f p.result
      (response_stream ps ++ rest) l1
      ⟨t.expand ++ (p.entries.map (entry_values host conf.m_ldapattr)).flatten,
        t.nbnodes + ((p.entries.map (entry_values host conf.m_ldapattr)).flatten).length⟩
      (by rw [h11]; exact hid) hty hpg (by rw [h11]; exact hw)
    have hps2 : continued host conf.m_ldapattr l2.msgid ps = true := by
      rw [h21, h11]; exact hps
    obtain ⟨l3, h31, h32, h33⟩ := ih l2
      ⟨t.expand ++ (p.entries.map (entry_values host conf.m_ldapattr)).flatten,
        t.nbnodes + ((p.entries.map (entry_values host conf.m_ldapattr)).flatten).length⟩
      hps2
    refine ⟨l3, ?_, ?_, ?_⟩
    · rw [h31, h21, h11, List.length_cons]; omega
    · rw [h32, h22, h12]; simp
    · have e : response_stream (p :: ps) ++ rest =
          p.entries ++ p.result :: (response_stream ps ++ rest) := by
        simp [response_stream]
      rw [e, h13, h23, h33]
      simp [pages_values, Nat.add_assoc]

/-- A well-formed sequence of pages is a sequence of pages that each end with
a cookie, followed by one page that ends without. -/
theorem well_formed_split (host : Host) (attr : List Char) :
    ∀ (pages : List page) (id : Nat), well_formed host attr id pages = true →
      ∃ (init : List page) (last : page), pages = init ++ [last] ∧
        continued host attr id init = true ∧
        page_ok host attr (id + init.length) last = true ∧
        next_page last.result = none := by
  intro pages
  induction pages with
  | nil => intro id h; simp [well_formed] at h
  | cons p ps ih =>
    intro id h
    cases ps with
    | nil =>
      simp only [well_formed, Bool.and_eq_true, Option.isNone_iff_eq_none] at h
      exact ⟨[], p, rfl, rfl, by simpa using h.1, h.2⟩
    | cons q qs =>
      simp only [well_formed, Bool.and_eq_true] at h
      obtain ⟨⟨⟨hp, hpg⟩, hw⟩, hrest⟩ := h
      obtain ⟨init, last, e, hc, hl, hn⟩ := ih (id + 1) hrest
      refine ⟨p :: init, last, by rw [e]; rfl, ?_, ?_, hn⟩
      · simp only [continued, Bool.and_eq_true]
        exact ⟨⟨⟨hp, hpg⟩, hw⟩, hc⟩
      · rw [List.length_cons]
        have e2 : id + (init.length + 1) = id + 1 + init.length := by omega
        rw [e2]; exact hl

theorem response_stream_append (ps qs : List page) :
    response_stream (ps ++ qs) = response_stream ps ++ response_stream qs := by
  induction ps with
  | nil => rfl
  | cons p ps ih => simp [response_stream, ih]

theorem pages_values_append (host : Host) (attr : List Char) (ps qs : List page) :
    pages_values host attr (ps ++ qs) =
      pages_values host attr ps ++ pages_values host attr qs := by
  induction ps with
  | nil => rfl
  | cons p ps ih => simp [pages_values, ih]

/-- On a well-formed stream the loop ends with success, the table holding the
values of all pages after those it held, one request issued for each page but
the last. -/
theorem alias_loop_well_formed (host : Host) (conf : ldap_conf) (f : List Char)
    (rest : List aldap_message) (pages : List page) (ldap : aldap) (t : table_alias)
    (h : well_formed host conf.m_ldapattr ldap.msgid pages = true) :
    (alias_loop host conf f (response_stream pages ++ rest) ldap t).ret = 1 ∧
      (alias_loop host conf f (response_stream pages ++ rest) ldap t).retp =
        .written (some ⟨t.expand ++ pages_values host conf.m_ldapattr pages,
          t.nbnodes + (pages_values host conf.m_ldapattr pages).length⟩) ∧
      (alias_loop host conf f (response_stream pages ++ rest) ldap t).aldap.searches =
        ldap.searches ++
          pages.dropLast.map (fun p => lookup_request conf f p.result.page) := by
  obtain ⟨init, last, e, hc, hl, hn⟩ := well_formed_split host conf.m_ldapattr pages _ h
  subst e
  obtain ⟨l1, h11, h12, h13⟩ := alias_loop_continued host conf f
    (last.entries ++ last.result :: rest) init ldap t hc
  simp only [page_ok, Bool.and_eq_true, decide_eq_true_eq] at hl
  obtain ⟨⟨hentries, hid⟩, hty⟩ := hl
  rw [← h11] at hentries hid
  obtain ⟨l2, h21, h22, h23⟩ := alias_loop_entries host conf f (last.result :: rest)
    last.entries l1
    ⟨t.expand ++ pages_values host conf.m_ldapattr init,
      t.nbnodes + (pages_values host conf.m_ldapattr init).length⟩ hentries
  have e : response_stream (init ++ [last]) ++ rest =
      response_stream init ++ (last.entries ++ last.result :: rest) := by
    simp [response_stream_append, response_stream]
  rw [e, h13, h23,
    alias_loop_last_result host conf f last.result rest l2 _ (by rw [h21]; exact hid) hty hn]
  refine ⟨rfl, ?_, ?_⟩
  · simp [pages_values_append, pages_values, Nat.add_assoc]
  · simp [aldap_freemsg, h22, h12]

/-- Every request the loop issues carries the expanded filter. -/
theorem alias_loop_searches (host : Host) (conf : ldap_conf) (f : List Char) :
    ∀ (inbox : List aldap_message) (ldap : aldap) (t : table_alias),
      ∃ new : List search_request,
        (alias_loop host conf f inbox ldap t).aldap.searches = ldap.searches ++ new ∧
        ∀ r ∈ new, r.filter = f := by
  intro inbox
  induction inbox with
  | nil => intro ldap t; exact ⟨[], by simp [alias_loop], by simp⟩
  | cons m rest ih =>
    intro ldap t
    rw [alias_loop.eq_2]
    split
    · exact ⟨[], by simp [aldap_freemsg], by simp⟩
    split
    · split
      · exact ⟨[], by simp [aldap_freemsg], by simp⟩
      · rename_i pg _
        simp only []
        split
        · refine ⟨[lookup_request conf f (some pg)], ?_, by simp [lookup_request]⟩
          simp only [aldap_search, aldap_freemsg]
          split <;> rfl
        · obtain ⟨new, h1, h2⟩ := ih
            (aldap_search host (aldap_freemsg ldap m) (lookup_request conf f (some pg))).2 t
          refine ⟨lookup_request conf f (some pg) :: new, ?_, ?_⟩
          · rw [h1]
            simp only [aldap_search, aldap_freemsg]
            split <;> simp
          · intro r hr
            rcases List.mem_cons.mp hr with hr | hr
            · rw [hr]; rfl
            · exact h2 r hr
    split
    · exact ⟨[], by simp [aldap_freemsg], by simp⟩
    split
    · exact ⟨[], by simp [aldap_freemsg], by simp⟩
    split
    · exact ⟨[], by simp [aldap_freemsg], by simp⟩
    · rename_i t2 _
      obtain ⟨new, h1, h2⟩ := ih (aldap_freemsg ldap m) t2
      exact ⟨new, by rw [h1]; rfl, h2⟩

/-- When the filter expands and the first request is written,
`table_ldap_alias` enters its loop with that one request issued and an empty
table. -/
theorem alias_start (host : Host) (hdl : ldaphandle) (key f : List Char)
    (inbox : List aldap_message)
    (hf : table_ldap_expandfilter host hdl key = some f)
    (hw : host.aldap_write (hdl.aldap.msgid + 1) = true) :
    ∃ ldap1 : aldap, ldap1.msgid = hdl.aldap.msgid + 1 ∧
      ldap1.searches = hdl.aldap.searches ++ [lookup_request hdl.conf f none] ∧
      table_ldap_alias host hdl key inbox =
        alias_loop host hdl.conf f inbox ldap1 ⟨[], 0⟩ := by
  refine ⟨(aldap_search host hdl.aldap (lookup_request hdl.conf f none)).2, ?_, ?_, ?_⟩
  · simp [aldap_search, hw]
  · simp [aldap_search, hw]
  · unfold table_ldap_alias
    rw [hf]
    have hret : (aldap_search host hdl.aldap (lookup_request hdl.conf f none)).1 ≠ -1 := by
      simp only [aldap_search, hw, if_true]
      omega
    simp only [if_neg hret]

/-- A message whose id is not the outstanding id ends the loop with failure,
nothing stored and no request issued. -/
theorem alias_loop_mismatch (host : Host) (conf : ldap_conf) (f : List Char)
    (m : aldap_message) (rest : List aldap_message) (ldap : aldap) (t : table_alias)
    (h : m.msgid ≠ (ldap.msgid : Int)) :
    alias_loop host conf f (m :: rest) ldap t = ⟨-1, .unwritten, aldap_freemsg ldap m⟩ := by
  rw [alias_loop.eq_2, if_pos (fun e => h e.symm)]


/-! ## The filter template: placeholder and length limit -/

/-- C1, as stated, fails on either C library: the template
`(&(mail=%k)(quota=100%))` contains the placeholder exactly once and its
replacement is well within the limit, yet for the key `joe` the function
returns `(&(mail=joe)(quota=100))`, which lacks the second `%` of the
template, on a library that keeps the destination of `snprintf`, and `)` on a
library that clears it. -/
theorem expandfilter_placeholder_counterexample :
    placeholder_count "(&(mail=%k)(quota=100%))".toList = 1 ∧
      (replace_placeholder "joe".toList "(&(mail=%k)(quota=100%))".toList).length <
        demo_host.MAX_LDAP_FILTERLEN * 2 ∧
      table_ldap_expandfilter demo_host (demo_handle "(&(mail=%k)(quota=100%))".toList)
        "joe".toList = some "(&(mail=joe)(quota=100))".toList ∧
      table_ldap_expandfilter demo_host (demo_handle "(&(mail=%k)(quota=100%))".toList)
        "joe".toList ≠
        some (replace_placeholder "joe".toList "(&(mail=%k)(quota=100%))".toList) ∧
      table_ldap_expandfilter demo_host_cleared
        (demo_handle "(&(mail=%k)(quota=100%))".toList) "joe".toList = some ")".toList ∧
      table_ldap_expandfilter demo_host_cleared
        (demo_handle "(&(mail=%k)(quota=100%))".toList) "joe".toList ≠
        some (replace_placeholder "joe".toList "(&(mail=%k)(quota=100%))".toList) := by
  decide

/-- C1, amended: on a C library whose `snprintf` keeps the destination it
reads, so that each call appends, for a template that contains the placeholder
`%k` exactly once, `pre` being the text before it and `post` the text after
it, and every key, when the buffer size `2 * MAX_LDAP_FILTERLEN` fits an `int`
and the result is shorter than it, `table_ldap_expandfilter` returns `pre`
without its `%` characters, then the key verbatim, then `post` without its `%`
characters. -/
theorem expandfilter_placeholder (host : Host) (hdl : ldaphandle)
    (key pre post : List Char)
    (hlib : host.overlap = .kept)
    (htpl : hdl.conf.m_ldapfilter = pre ++ '%' :: 'k' :: post)
    (hone : placeholder_count hdl.conf.m_ldapfilter = 1)
    (hsize : host.MAX_LDAP_FILTERLEN * 2 ≤ 2147483647)
    (hlen : (pre.filter (fun c => decide (c ≠ '%'))).length + key.length +
      (post.filter (fun c => decide (c ≠ '%'))).length < host.MAX_LDAP_FILTERLEN * 2) :
    table_ldap_expandfilter host hdl key =
      some (pre.filter (fun c => decide (c ≠ '%')) ++ key ++
        post.filter (fun c => decide (c ≠ '%'))) := by
  have hexp := expansion_one_placeholder key post pre (by rw [← htpl]; exact hone)
  rw [← htpl] at hexp
  rw [← hexp]
  apply expandfilter_fits host hdl key hlib hsize
  rw [hexp]
  simpa [Nat.add_assoc] using hlen

/-- An instance of C1 as amended: the template `(&(mail=%k)(quota=100%))` and the key `joe`. -/
theorem expandfilter_placeholder_witness :
    placeholder_count (demo_handle "(&(mail=%k)(quota=100%))".toList).conf.m_ldapfilter = 1 ∧
      table_ldap_expandfilter demo_host (demo_handle "(&(mail=%k)(quota=100%))".toList)
        "joe".toList = some "(&(mail=joe)(quota=100))".toList :=
  ⟨by decide,
    expandfilter_placeholder demo_host (demo_handle "(&(mail=%k)(quota=100%))".toList)
      "joe".toList "(&(mail=".toList ")(quota=100%))".toList rfl (by decide) (by decide)
      (by decide) (by decide)⟩

/-- C2, as stated, fails on either C library: the template `(quota=100%)`
does not contain the placeholder and is well within the limit, yet the
function returns `(quota=100)`, not the template, on a library that keeps the
destination of `snprintf`, and `)` on a library that clears it; on the latter
the template `ab`, which has no `%`, comes back as `b`. -/
theorem expandfilter_no_placeholder_counterexample :
    placeholder_count "(quota=100%)".toList = 0 ∧
      "(quota=100%)".toList.length < demo_host.MAX_LDAP_FILTERLEN * 2 ∧
      table_ldap_expandfilter demo_host (demo_handle "(quota=100%)".toList) "joe".toList =
        some "(quota=100)".toList ∧
      table_ldap_expandfilter demo_host (demo_handle "(quota=100%)".toList) "joe".toList ≠
        some "(quota=100%)".toList ∧
      table_ldap_expandfilter demo_host_cleared (demo_handle "(quota=100%)".toList)
        "joe".toList = some ")".toList ∧
      placeholder_count "ab".toList = 0 ∧
      table_ldap_expandfilter demo_host_cleared (demo_handle "ab".toList) "joe".toList =
        some "b".toList := by
  decide

/-- C2, amended: on a C library whose `snprintf` keeps the destination it
reads, so that each call appends, for a template that does not contain the
placeholder `%k` and every key, when the buffer size `2 * MAX_LDAP_FILTERLEN`
fits an `int` and the template without its `%` characters is shorter than it,
`table_ldap_expandfilter` returns the template without its `%` characters;
hence the template unchanged when it contains no `%`. -/
theorem expandfilter_no_placeholder (host : Host) (hdl : ldaphandle) (key : List Char)
    (hlib : host.overlap = .kept)
    (hnone : placeholder_count hdl.conf.m_ldapfilter = 0)
    (hsize : host.MAX_LDAP_FILTERLEN * 2 ≤ 2147483647)
    (hlen : (hdl.conf.m_ldapfilter.filter (fun c => decide (c ≠ '%'))).length <
      host.MAX_LDAP_FILTERLEN * 2) :
    table_ldap_expandfilter host hdl key =
        some (hdl.conf.m_ldapfilter.filter (fun c => decide (c ≠ '%'))) ∧
      ('%' ∉ hdl.conf.m_ldapfilter →
        table_ldap_expandfilter host hdl key = some hdl.conf.m_ldapfilter) := by
  have hexp := expansion_no_placeholder key hdl.conf.m_ldapfilter hnone
  have h := expandfilter_fits host hdl key hlib hsize (by rw [hexp]; exact hlen)
  rw [hexp] at h
  refine ⟨h, fun hno => ?_⟩
  rw [h]
  congr 1
  rw [List.filter_eq_self]
  intro c hc
  simp only [ne_eq, decide_not, Bool.not_eq_true', decide_eq_false_iff_not]
  intro e
  exact hno (e ▸ hc)

/-- Two instances of C2 as amended: a template with a `%` and one without. -/
theorem expandfilter_no_placeholder_witness :
    table_ldap_expandfilter demo_host (demo_handle "(quota=100%)".toList) "joe".toList =
        some "(quota=100)".toList ∧
      table_ldap_expandfilter demo_host (demo_handle "(uid=root)".toList) "joe".toList =
        some "(uid=root)".toList :=
  ⟨(expandfilter_no_placeholder demo_host (demo_handle "(quota=100%)".toList) "joe".toList
      rfl (by decide) (by decide) (by decide)).1,
    (expandfilter_no_placeholder demo_host (demo_handle "(uid=root)".toList) "joe".toList
      rfl (by decide) (by decide) (by decide)).2 (by decide)⟩

/-! ## Paged lookups -/

theorem as_virtual_ret (r : lookup_result table_alias) : r.as_virtual.ret = r.ret := rfl

theorem as_virtual_aldap (r : lookup_result table_alias) : r.as_virtual.aldap = r.aldap := rfl

theorem as_virtual_retp_written (r : lookup_result table_alias) (t : table_alias)
    (h : r.retp = .written (some t)) :
    r.as_virtual.retp = .written (some ⟨t.expand, t.nbnodes⟩) := by
  simp [lookup_result.as_virtual, h, table_alias.as_virtual]

theorem as_virtual_retp_unwritten (r : lookup_result table_alias)
    (h : r.retp = .unwritten) : r.as_virtual.retp = .unwritten := by
  simp [lookup_result.as_virtual, h]

/-- C3: for a well-formed response stream of one or more pages (every message
carries the id of the request it answers, every entry carries the configured
attribute with values that all parse, a page ends with a non-empty cookie
exactly when it is not the last), the filter having expanded and the requests
being written, `table_ldap_alias` returns 1 and stores a table whose list is
the parsed values of all entries, page after page, and whose node count is
their number; so does `table_ldap_virtual` for a key that contains `@`. -/
theorem lookup_well_formed_result (host : Host) (hdl : ldaphandle) (key f : List Char)
    (pages : List page) (rest : List aldap_message)
    (hf : table_ldap_expandfilter host hdl key = some f)
    (hw : host.aldap_write (hdl.aldap.msgid + 1) = true)
    (hwf : well_formed host hdl.conf.m_ldapattr (hdl.aldap.msgid + 1) pages = true) :
    ((table_ldap_alias host hdl key (response_stream pages ++ rest)).ret = 1 ∧
      (table_ldap_alias host hdl key (response_stream pages ++ rest)).retp =
        .written (some ⟨pages_values host hdl.conf.m_ldapattr pages,
          (pages_values host hdl.conf.m_ldapattr pages).length⟩)) ∧
    ('@' ∈ key →
      (table_ldap_virtual host hdl key (response_stream pages ++ rest)).ret = 1 ∧
      (table_ldap_virtual host hdl key (response_stream pages ++ rest)).retp =
        .written (some ⟨pages_values host hdl.conf.m_ldapattr pages,
          (pages_values host hdl.conf.m_ldapattr pages).length⟩)) := by
  obtain ⟨ldap1, h1, _, h3⟩ := alias_start host hdl key f (response_stream pages ++ rest) hf hw
  obtain ⟨hret, hretp, _⟩ := alias_loop_well_formed host hdl.conf f rest pages ldap1 ⟨[], 0⟩
    (by rw [h1]; exact hwf)
  rw [← h3] at hret hretp
  simp only [List.nil_append, Nat.zero_add] at hretp
  refine ⟨⟨hret, hretp⟩, fun hkey => ?_⟩
  rw [virtual_eq_alias host hdl key _ hkey]
  exact ⟨hret, as_virtual_retp_written _ _ hretp⟩

/-- An instance of C3: two pages, three values. -/
theorem lookup_well_formed_result_witness :
    (table_ldap_alias demo_host (demo_handle "(mail=%k)".toList) "joe@x.org".toList
        [demo_entry 1 ["a@b".toList, "c".toList], demo_result 1 [7],
          demo_entry 2 ["d".toList], demo_result 2 []]).retp =
      .written (some ⟨[⟨0, "a@b".toList⟩, ⟨0, "c".toList⟩, ⟨0, "d".toList⟩], 3⟩) :=
  (lookup_well_formed_result demo_host (demo_handle "(mail=%k)".toList) "joe@x.org".toList
    "(mail=joe@x.org)".toList
    [⟨[demo_entry 1 ["a@b".toList, "c".toList]], demo_result 1 [7]⟩,
      ⟨[demo_entry 2 ["d".toList]], demo_result 2 []⟩] []
    (by decide) (by decide) (by decide)).1.2

/-- C4: on a well-formed response stream of `n` pages the lookup issues
exactly `n` search requests, all with the base DN, subtree scope, the expanded
filter and the configured attribute: the first without page cursor, each later
one with the page control of the search-result message that ended the page
before it; the last page, which ends without cookie, is followed by no
request.  This holds for `table_ldap_alias`, and for `table_ldap_virtual` when
the key contains `@`. -/
theorem lookup_well_formed_requests (host : Host) (hdl : ldaphandle) (key f : List Char)
    (pages : List page) (rest : List aldap_message)
    (hf : table_ldap_expandfilter host hdl key = some f)
    (hw : host.aldap_write (hdl.aldap.msgid + 1) = true)
    (hwf : well_formed host hdl.conf.m_ldapattr (hdl.aldap.msgid + 1) pages = true) :
    (table_ldap_alias host hdl key (response_stream pages ++ rest)).aldap.searches =
        hdl.aldap.searches ++ (cursors pages).map (lookup_request hdl.conf f) ∧
      ((cursors pages).map (lookup_request hdl.conf f)).length = pages.length ∧
      ('@' ∈ key →
        (table_ldap_virtual host hdl key (response_stream pages ++ rest)).aldap.searches =
          hdl.aldap.searches ++ (cursors pages).map (lookup_request hdl.conf f)) := by
  obtain ⟨ldap1, h1, h2, h3⟩ := alias_start host hdl key f (response_stream pages ++ rest) hf hw
  obtain ⟨_, _, hs⟩ := alias_loop_well_formed host hdl.conf f rest pages ldap1 ⟨[], 0⟩
    (by rw [h1]; exact hwf)
  rw [← h3, h2] at hs
  have hreq : (table_ldap_alias host hdl key (response_stream pages ++ rest)).aldap.searches =
      hdl.aldap.searches ++ (cursors pages).map (lookup_request hdl.conf f) := by
    rw [hs]; simp [cursors, List.map_map, Function.comp_def]
  have hne : pages ≠ [] := by
    intro e; rw [e] at hwf; simp [well_formed] at hwf
  refine ⟨hreq, ?_, fun hkey => ?_⟩
  · have := List.length_pos.mpr hne
    simp [cursors]; omega
  · rw [virtual_eq_alias host hdl key _ hkey, as_virtual_aldap]
    exact hreq

/-- An instance of C4: two pages, two requests, the second with the cookie of the first page. -/
theorem lookup_well_formed_requests_witness :
    (table_ldap_alias demo_host (demo_handle "(mail=%k)".toList) "joe@x.org".toList
        [demo_entry 1 ["a@b".toList, "c".toList], demo_result 1 [7],
          demo_entry 2 ["d".toList], demo_result 2 []]).aldap.searches =
      [⟨"dc=example".toList, .LDAP_SCOPE_SUBTREE, "(mail=joe@x.org)".toList,
          ["mail".toList], 0, 0, 0, none⟩,
        ⟨"dc=example".toList, .LDAP_SCOPE_SUBTREE, "(mail=joe@x.org)".toList,
          ["mail".toList], 0, 0, 0, some ⟨0, [7]⟩⟩] :=
  (lookup_well_formed_requests demo_host (demo_handle "(mail=%k)".toList)
    "joe@x.org".toList "(mail=joe@x.org)".toList
    [⟨[demo_entry 1 ["a@b".toList, "c".toList]], demo_result 1 [7]⟩,
      ⟨[demo_entry 2 ["d".toList]], demo_result 2 []⟩] []
    (by decide) (by decide) (by decide)).1

/-- C5: when, after any number of complete pages that each ended with a cookie
and any number of good entries of the page that follows, a message arrives
whose id is not the id of the outstanding request, the lookup returns -1,
leaves the caller's result pointer unwritten, and has issued one request per
page begun and none after the message.  This holds for `table_ldap_alias`, and
for `table_ldap_virtual` when the key contains `@`. -/
theorem lookup_msgid_mismatch (host : Host) (hdl : ldaphandle) (key f : List Char)
    (pages : List page) (entries : List aldap_message) (m : aldap_message)
    (rest : List aldap_message)
    (hf : table_ldap_expandfilter host hdl key = some f)
    (hw : host.aldap_write (hdl.aldap.msgid + 1) = true)
    (hpages : continued host hdl.conf.m_ldapattr (hdl.aldap.msgid + 1) pages = true)
    (hentries : entries.all
      (entry_ok host hdl.conf.m_ldapattr (hdl.aldap.msgid + 1 + pages.length)) = true)
    (hm : m.msgid ≠ ((hdl.aldap.msgid + 1 + pages.length : Nat) : Int)) :
    ((table_ldap_alias host hdl key
          (response_stream pages ++ (entries ++ m :: rest))).ret = -1 ∧
      (table_ldap_alias host hdl key
          (response_stream pages ++ (entries ++ m :: rest))).retp = .unwritten ∧
      (table_ldap_alias host hdl key
          (response_stream pages ++ (entries ++ m :: rest))).aldap.searches =
        hdl.aldap.searches ++
          (none :: pages.map (fun p => p.result.page)).map (lookup_request hdl.conf f)) ∧
    ('@' ∈ key →
      (table_ldap_virtual host hdl key
          (response_stream pages ++ (entries ++ m :: rest))).ret = -1 ∧
      (table_ldap_virtual host hdl key
          (response_stream pages ++ (entries ++ m :: rest))).retp = .unwritten ∧
      (table_ldap_virtual host hdl key
          (response_stream pages ++ (entries ++ m :: rest))).aldap.searches =
        hdl.aldap.searches ++
          (none :: pages.map (fun p => p.result.page)).map (lookup_request hdl.conf f)) := by
  obtain ⟨ldap1, h1, h2, h3⟩ := alias_start host hdl key f
    (response_stream pages ++ (entries ++ m :: rest)) hf hw
  obtain ⟨l2, h21, h22, h23⟩ := alias_loop_continued host hdl.conf f (entries ++ m :: rest)
    pages ldap1 ⟨[], 0⟩ (by rw [h1]; exact hpages)
  obtain ⟨l3, h31, h32, h33⟩ := alias_loop_entries host hdl.conf f (m :: rest) entries l2
    ⟨[] ++ pages_values host hdl.conf.m_ldapattr pages,
      0 + (pages_values host hdl.conf.m_ldapattr pages).length⟩
    (by rw [h21, h1]; exact hentries)
  have hm3 : m.msgid ≠ (l3.msgid : Int) := by rw [h31, h21, h1]; exact hm
  have hall := alias_loop_mismatch host hdl.conf f m rest l3
    ⟨([] ++ pages_values host hdl.conf.m_ldapattr pages) ++
        (entries.map (entry_values host hdl.conf.m_ldapattr)).flatten,
      (0 + (pages_values host hdl.conf.m_ldapattr pages).length) +
        ((entries.map (entry_values host hdl.conf.m_ldapattr)).flatten).length⟩ hm3
  rw [← h33, ← h23, ← h3] at hall
  have halias : (table_ldap_alias host hdl key
        (response_stream pages ++ (entries ++ m :: rest))).ret = -1 ∧
      (table_ldap_alias host hdl key
        (response_stream pages ++ (entries ++ m :: rest))).retp = .unwritten ∧
      (table_ldap_alias host hdl key
        (response_stream pages ++ (entries ++ m :: rest))).aldap.searches =
        hdl.aldap.searches ++
          (none :: pages.map (fun p => p.result.page)).map (lookup_request hdl.conf f) := by
    rw [hall]
    refine ⟨rfl, rfl, ?_⟩
    simp [aldap_freemsg, h32, h22, h2, List.map_map, Function.comp_def]
  refine ⟨halias, fun hkey => ?_⟩
  rw [virtual_eq_alias host hdl key _ hkey]
  exact ⟨halias.1, as_virtual_retp_unwritten _ halias.2.1, halias.2.2⟩

/-- An instance of C5: on the second page a message with id 9 answers request 2. -/
theorem lookup_msgid_mismatch_witness :
    (table_ldap_alias demo_host (demo_handle "(mail=%k)".toList) "joe@x.org".toList
        [demo_entry 1 ["a@b".toList], demo_result 1 [7], demo_entry 2 ["d".toList],
          demo_entry 9 ["e".toList], demo_result 2 [8]]).ret = -1 :=
  (lookup_msgid_mismatch demo_host (demo_handle "(mail=%k)".toList) "joe@x.org".toList
    "(mail=joe@x.org)".toList [⟨[demo_entry 1 ["a@b".toList]], demo_result 1 [7]⟩]
    [demo_entry 2 ["d".toList]] (demo_entry 9 ["e".toList]) [demo_result 2 [8]]
    (by decide) (by decide) (by decide) (by decide) (by decide)).1.1


/-- C6, at the failing input: the first page is complete and ends with a
cookie, one entry of the second page arrives, and the next `aldap_parse`
returns `NULL` before any search-result message for the second request.
`table_ldap_alias` and `table_ldap_virtual` return 1 and store a table holding
the values received so far, having issued two requests. -/
theorem lookup_receive_failure_returns_partial :
    (table_ldap_alias demo_host (demo_handle "(mail=%k)".toList) "joe@x.org".toList
        [demo_entry 1 ["a@b".toList], demo_result 1 [7], demo_entry 2 ["d".toList]]).ret = 1 ∧
      (table_ldap_alias demo_host (demo_handle "(mail=%k)".toList) "joe@x.org".toList
        [demo_entry 1 ["a@b".toList], demo_result 1 [7], demo_entry 2 ["d".toList]]).retp =
        .written (some ⟨[⟨0, "a@b".toList⟩, ⟨0, "d".toList⟩], 2⟩) ∧
      (table_ldap_alias demo_host (demo_handle "(mail=%k)".toList) "joe@x.org".toList
        [demo_entry 1 ["a@b".toList], demo_result 1 [7],
          demo_entry 2 ["d".toList]]).aldap.searches.length = 2 ∧
      (table_ldap_virtual demo_host (demo_handle "(mail=%k)".toList) "joe@x.org".toList
        [demo_entry 1 ["a@b".toList], demo_result 1 [7], demo_entry 2 ["d".toList]]).ret = 1 ∧
      (table_ldap_virtual demo_host (demo_handle "(mail=%k)".toList) "joe@x.org".toList
        [demo_entry 1 ["a@b".toList], demo_result 1 [7], demo_entry 2 ["d".toList]]).retp =
        .written (some ⟨[⟨0, "a@b".toList⟩, ⟨0, "d".toList⟩], 2⟩) := by
  decide

/-! ## The domain key, the length limit and the requests -/

/-- The expansion of `(mail=%k)`. -/
theorem expansion_mail (key : List Char) :
    expansion key "(mail=%k)".toList = "(mail=".toList ++ key ++ ")".toList := by
  show expansion key ['(', 'm', 'a', 'i', 'l', '=', '%', 'k', ')'] = _
  rw [expansion_other _ _ _ (by decide), expansion_other _ _ _ (by decide),
    expansion_other _ _ _ (by decide), expansion_other _ _ _ (by decide),
    expansion_other _ _ _ (by decide), expansion_other _ _ _ (by decide),
    expansion_placeholder, expansion_other _ _ _ (by decide), expansion.eq_1]
  simp

/-- On a library that keeps the destination, the function fails when the
expansion of the template is longer than the buffer. -/
theorem expandfilter_too_long (host : Host) (hdl : ldaphandle) (key : List Char)
    (hlib : host.overlap = .kept)
    (hlen : host.MAX_LDAP_FILTERLEN * 2 < (expansion key hdl.conf.m_ldapfilter).length) :
    table_ldap_expandfilter host hdl key = none := by
  cases h : table_ldap_expandfilter host hdl key with
  | none => rfl
  | some out =>
    obtain ⟨h1, h2⟩ := expandfilter_some host hdl key out hlib h
    rw [← h1] at hlen
    rcases h2 with h2 | h2
    · rw [h2] at hlen; simp at hlen
    · omega

/-- With `MAX_LDAP_FILTERLEN` 1024, the template `(mail=%k)` and a key of 2048
letters `x`, the expansion is longer than the buffer. -/
theorem long_key_too_long :
    demo_host.MAX_LDAP_FILTERLEN * 2 <
      (expansion (List.replicate 2048 'x')
        (demo_handle "(mail=%k)".toList).conf.m_ldapfilter).length := by
  show 1024 * 2 < (expansion (List.replicate 2048 'x') "(mail=%k)".toList).length
  rw [expansion_mail, List.length_append, List.length_append, List.length_replicate]
  decide

/-- C7, as stated, fails: with the template `(mail=%k)` and
`MAX_LDAP_FILTERLEN` 1024, the key made of 2048 letters `x` contains no `@`,
yet `table_ldap_virtual` returns -1 and leaves the result pointer unwritten. -/
theorem virtual_domain_key_counterexample :
    '@' ∉ List.replicate 2048 'x' ∧
      (table_ldap_virtual demo_host (demo_handle "(mail=%k)".toList)
        (List.replicate 2048 'x') []).ret = -1 ∧
      (table_ldap_virtual demo_host (demo_handle "(mail=%k)".toList)
        (List.replicate 2048 'x') []).retp = .unwritten := by
  have hnone := expandfilter_too_long demo_host (demo_handle "(mail=%k)".toList)
    (List.replicate 2048 'x') rfl long_key_too_long
  refine ⟨?_, ?_, ?_⟩
  · intro h
    exact absurd (List.eq_of_mem_replicate h) (by decide)
  · unfold table_ldap_virtual; rw [hnone]
  · unfold table_ldap_virtual; rw [hnone]

/-- C7, amended: for every key that does not contain `@` and whose filter
expansion is shorter than the buffer size `2 * MAX_LDAP_FILTERLEN`, that size
fitting an `int`, `table_ldap_virtual` returns 1, stores `NULL` in the result
pointer and leaves the session as it was: no search request is issued. -/
theorem virtual_domain_key (host : Host) (hdl : ldaphandle) (key : List Char)
    (inbox : List aldap_message)
    (hkey : '@' ∉ key)
    (hsize : host.MAX_LDAP_FILTERLEN * 2 ≤ 2147483647)
    (hlen : (expansion key hdl.conf.m_ldapfilter).length < host.MAX_LDAP_FILTERLEN * 2) :
    table_ldap_virtual host hdl key inbox = ⟨1, .written none, hdl.aldap⟩ ∧
      (table_ldap_virtual host hdl key inbox).aldap.searches = hdl.aldap.searches := by
  have h : table_ldap_virtual host hdl key inbox = ⟨1, .written none, hdl.aldap⟩ := by
    obtain ⟨f, hf⟩ := expandfilter_succeeds host hdl key hsize hlen
    unfold table_ldap_virtual
    rw [hf]
    simp only [hkey, not_false_eq_true, if_true]
  exact ⟨h, by rw [h]⟩

/-- An instance of C7 as amended: the key `example.com`. -/
theorem virtual_domain_key_witness :
    table_ldap_virtual demo_host (demo_handle "(mail=%k)".toList) "example.com".toList
        [demo_entry 1 ["a@b".toList]] =
      ⟨1, .written none, demo_aldap⟩ :=
  (virtual_domain_key demo_host (demo_handle "(mail=%k)".toList) "example.com".toList
    [demo_entry 1 ["a@b".toList]] (by decide) (by decide) (by decide)).1

/-- On a library that keeps the destination, a template and key whose
expansion is longer than twice `MAX_LDAP_FILTERLEN` make
`table_ldap_expandfilter` return `NULL` and both lookups return -1 with the
result pointer unwritten and the session as it was. -/
theorem lookup_filter_too_long_kept (host : Host) (hdl : ldaphandle) (key : List Char)
    (inbox : List aldap_message)
    (hlib : host.overlap = .kept)
    (hlen : host.MAX_LDAP_FILTERLEN * 2 < (expansion key hdl.conf.m_ldapfilter).length) :
    table_ldap_expandfilter host hdl key = none ∧
      table_ldap_alias host hdl key inbox = ⟨-1, .unwritten, hdl.aldap⟩ ∧
      table_ldap_virtual host hdl key inbox = ⟨-1, .unwritten, hdl.aldap⟩ := by
  have hnone := expandfilter_too_long host hdl key hlib hlen
  have ha : table_ldap_alias host hdl key inbox = ⟨-1, .unwritten, hdl.aldap⟩ := by
    simp [table_ldap_alias, hnone]
  have hv : table_ldap_virtual host hdl key inbox = ⟨-1, .unwritten, hdl.aldap⟩ := by
    simp [table_ldap_virtual, hnone]
  exact ⟨hnone, ha, hv⟩

/-- C8, at the failing input: a C library that clears the destination of
`snprintf` before it formats, `MAX_LDAP_FILTERLEN` 1024, the template
`(mail=%k)` and the key made of `@` and 2046 letters `x`.  The expansion has
2054 characters, more than twice `MAX_LDAP_FILTERLEN`, yet
`table_ldap_expandfilter` returns the filter `)`, and `table_ldap_alias` and
`table_ldap_virtual` issue one search request with that filter and, on a
session that receives nothing, return 1 with an empty table. -/
theorem lookup_cleared_long_filter :
    demo_host_cleared.MAX_LDAP_FILTERLEN * 2 <
        (expansion ('@' :: List.replicate 2046 'x')
          (demo_handle "(mail=%k)".toList).conf.m_ldapfilter).length ∧
      table_ldap_expandfilter demo_host_cleared (demo_handle "(mail=%k)".toList)
        ('@' :: List.replicate 2046 'x') = some ")".toList ∧
      table_ldap_alias demo_host_cleared (demo_handle "(mail=%k)".toList)
          ('@' :: List.replicate 2046 'x') [] =
        ⟨1, .written (some ⟨[], 0⟩),
          { demo_aldap with
            msgid := 1
            searches := [lookup_request (demo_handle "(mail=%k)".toList).conf
              ")".toList none] }⟩ ∧
      table_ldap_virtual demo_host_cleared (demo_handle "(mail=%k)".toList)
          ('@' :: List.replicate 2046 'x') [] =
        ⟨1, .written (some ⟨[], 0⟩),
          { demo_aldap with
            msgid := 1
            searches := [lookup_request (demo_handle "(mail=%k)".toList).conf
              ")".toList none] }⟩ := by
  have hk : ('@' :: List.replicate 2046 'x').length < 1024 * 2 := by
    rw [List.length_cons, List.length_replicate]; decide
  have hf : table_ldap_expandfilter demo_host_cleared (demo_handle "(mail=%k)".toList)
      ('@' :: List.replicate 2046 'x') = some ")".toList :=
    expandfilter_loop_cleared_mail (1024 * 2) _ (by decide) (by decide) hk
  refine ⟨?_, hf, ?_, ?_⟩
  · show 1024 * 2 < (expansion ('@' :: List.replicate 2046 'x') "(mail=%k)".toList).length
    rw [expansion_mail, List.length_append, List.length_append, List.length_cons,
      List.length_replicate]
    decide
  · unfold table_ldap_alias
    rw [hf]
    rfl
  · have hkey : '@' ∈ '@' :: List.replicate 2046 'x' := List.mem_cons_self _ _
    unfold table_ldap_virtual
    rw [hf]
    simp only [hkey, not_true_eq_false, if_false]
    rfl

/-- C9: every filter `table_ldap_expandfilter` returns has length at most
twice `MAX_LDAP_FILTERLEN`, whatever the template and the key; and every
search request `table_ldap_alias` or `table_ldap_virtual` issues carries a
filter of at most that length. -/
theorem filter_length_bound (host : Host) (hdl : ldaphandle) (key : List Char)
    (inbox : List aldap_message) :
    (∀ f, table_ldap_expandfilter host hdl key = some f →
      f.length ≤ host.MAX_LDAP_FILTERLEN * 2) ∧
    (∃ new, (table_ldap_alias host hdl key inbox).aldap.searches =
        hdl.aldap.searches ++ new ∧
      ∀ r ∈ new, r.filter.length ≤ host.MAX_LDAP_FILTERLEN * 2) ∧
    (∃ new, (table_ldap_virtual host hdl key inbox).aldap.searches =
        hdl.aldap.searches ++ new ∧
      ∀ r ∈ new, r.filter.length ≤ host.MAX_LDAP_FILTERLEN * 2) := by
  have hbound : ∀ f, table_ldap_expandfilter host hdl key = some f →
      f.length ≤ host.MAX_LDAP_FILTERLEN * 2 := by
    intro f hf
    rcases expandfilter_bound host hdl key f hf with h | h
    · rw [h]; simp
    · omega
  have halias : ∃ new, (table_ldap_alias host hdl key inbox).aldap.searches =
        hdl.aldap.searches ++ new ∧
      ∀ r ∈ new, r.filter.length ≤ host.MAX_LDAP_FILTERLEN * 2 := by
    unfold table_ldap_alias
    cases hf : table_ldap_expandfilter host hdl key with
    | none => exact ⟨[], by simp, by simp⟩
    | some f =>
      simp only []
      split
      · refine ⟨[lookup_request hdl.conf f none], ?_, ?_⟩
        · simp only [aldap_search]; split <;> rfl
        · intro r hr
          rw [List.mem_singleton.mp hr]
          exact hbound f hf
      · obtain ⟨new, h1, h2⟩ := alias_loop_searches host hdl.conf f inbox
          (aldap_search host hdl.aldap (lookup_request hdl.conf f none)).2 ⟨[], 0⟩
        refine ⟨lookup_request hdl.conf f none :: new, ?_, ?_⟩
        · rw [h1]
          simp only [aldap_search]
          split <;> simp
        · intro r hr
          rcases List.mem_cons.mp hr with hr | hr
          · rw [hr]; exact hbound f hf
          · rw [h2 r hr]; exact hbound f hf
  refine ⟨hbound, halias, ?_⟩
  by_cases hkey : '@' ∈ key
  · rw [virtual_eq_alias host hdl key inbox hkey, as_virtual_aldap]
    exact halias
  · refine ⟨[], ?_, by simp⟩
    unfold table_ldap_virtual
    cases table_ldap_expandfilter host hdl key with
    | none => simp
    | some f => simp [hkey]

/-- An instance of C9: the filter `(mail=joe)`. -/
theorem filter_length_bound_witness :
    table_ldap_expandfilter demo_host (demo_handle "(mail=%k)".toList) "joe".toList =
        some "(mail=joe)".toList ∧
      ("(mail=joe)".toList).length ≤ demo_host.MAX_LDAP_FILTERLEN * 2 :=
  ⟨by decide,
    (filter_length_bound demo_host (demo_handle "(mail=%k)".toList) "joe".toList []).1
      "(mail=joe)".toList (by decide)⟩

/-! ## Opening a handle -/

/-- A session `ldap_client_connect` returns is fresh: never closed, no request
sent. -/
theorem ldap_client_connect_fresh (net : network) (conf : ldap_conf) (ldap : aldap)
    (closed : List Int) (h : ldap_client_connect net conf = (some ldap, closed)) :
    ldap.closed = 0 ∧ ldap.msgid = 0 := by
  unfold ldap_client_connect at h
  simp only at h
  split at h
  · exact absurd h (by simp)
  split at h
  · exact absurd h (by simp)
  split at h
  · simp only [Prod.mk.injEq, Option.some.injEq] at h
    rw [← h.1]
    exact ⟨rfl, rfl⟩
  · exact absurd h (by simp)

/-- After a connection the outcome of `table_ldap_open` is decided by the bind
request, the response and its result code. -/
theorem open_connected (host : Host) (env : open_env) (t_config : List Char)
    (inbox : List aldap_message) (conf : ldap_conf) (ldap : aldap) (closed : List Int)
    (hconf : open_conf env t_config = some conf)
    (hconn : ldap_client_connect env.net conf = (some ldap, closed)) :
    table_ldap_open host env t_config inbox =
      if (aldap_bind host ldap conf.username conf.password).1 = -1 then
        ⟨none, some (aldap_close (aldap_bind host ldap conf.username conf.password).2), closed⟩
      else
        match inbox with
        | [] =>
          ⟨none, some (aldap_close (aldap_bind host ldap conf.username conf.password).2),
            closed⟩
        | message :: _ =>
          match message.rescode with
          | .LDAP_SUCCESS =>
            ⟨some ⟨conf, (aldap_bind host ldap conf.username conf.password).2⟩,
              some (aldap_bind host ldap conf.username conf.password).2, closed⟩
          | .LDAP_INVALID_CREDENTIALS =>
            ⟨none, some (aldap_freemsg
              (aldap_close (aldap_bind host ldap conf.username conf.password).2) message),
              closed⟩
          | .LDAP_OTHER _ =>
            ⟨none, some (aldap_freemsg
              (aldap_close (aldap_bind host ldap conf.username conf.password).2) message),
              closed⟩ := by
  unfold table_ldap_open
  rw [hconf]
  simp only [hconn]

theorem aldap_bind_ret (host : Host) (ldap : aldap) (u p : List Char) :
    (aldap_bind host ldap u p).1 = -1 ↔ host.aldap_write (ldap.msgid + 1) = false := by
  unfold aldap_bind
  simp only
  cases host.aldap_write (ldap.msgid + 1) with
  | true => simp; omega
  | false => simp

theorem aldap_bind_session (host : Host) (ldap : aldap) (u p : List Char) :
    (aldap_bind host ldap u p).2.fd = ldap.fd ∧
      (aldap_bind host ldap u p).2.closed = ldap.closed := by
  unfold aldap_bind
  simp only
  split <;> exact ⟨rfl, rfl⟩

/-- After a connection, a handle is returned exactly when the bind request is
written, a response arrives and its code is success; otherwise the session is
closed once more than it was. -/
theorem open_connected_cases (host : Host) (env : open_env) (t_config : List Char)
    (inbox : List aldap_message) (conf : ldap_conf) (ldap : aldap) (closed : List Int)
    (hconf : open_conf env t_config = some conf)
    (hconn : ldap_client_connect env.net conf = (some ldap, closed)) :
    ((table_ldap_open host env t_config inbox).handle.isSome = true ↔
      host.aldap_write (ldap.msgid + 1) = true ∧
        ∃ m rest, inbox = m :: rest ∧ m.rescode = .LDAP_SUCCESS) ∧
    ((table_ldap_open host env t_config inbox).handle = none →
      ∃ s, (table_ldap_open host env t_config inbox).session = some s ∧
        s.fd = ldap.fd ∧ s.closed = ldap.closed + 1) := by
  rw [open_connected host env t_config inbox conf ldap closed hconf hconn]
  have hfd := aldap_bind_session host ldap conf.username conf.password
  by_cases hret : (aldap_bind host ldap conf.username conf.password).1 = -1
  · rw [if_pos hret]
    have hw := (aldap_bind_ret host ldap conf.username conf.password).mp hret
    refine ⟨by simp [hw], fun _ => ⟨_, rfl, ?_, ?_⟩⟩
    · exact hfd.1
    · simp [aldap_close, hfd.2]
  · rw [if_neg hret]
    have hw : host.aldap_write (ldap.msgid + 1) = true := by
      cases h : host.aldap_write (ldap.msgid + 1) with
      | true => rfl
      | false => exact absurd ((aldap_bind_ret host ldap conf.username conf.password).mpr h) hret
    cases inbox with
    | nil =>
      refine ⟨by simp, fun _ => ⟨_, rfl, ?_, ?_⟩⟩
      · exact hfd.1
      · simp [aldap_close, hfd.2]
    | cons m rest =>
      simp only
      cases hcode : m.rescode with
      | LDAP_SUCCESS =>
        refine ⟨by simp [hw, hcode], fun h => ?_⟩
        exact absurd h (by simp)
      | LDAP_INVALID_CREDENTIALS =>
        refine ⟨by simp [hcode], fun _ => ⟨_, rfl, ?_, ?_⟩⟩
        · exact hfd.1
        · simp [aldap_close, aldap_freemsg, hfd.2]
      | LDAP_OTHER code =>
        refine ⟨by simp [hcode], fun _ => ⟨_, rfl, ?_, ?_⟩⟩
        · exact hfd.1
        · simp [aldap_close, aldap_freemsg, hfd.2]

/-- Without a connection `table_ldap_open` returns no handle. -/
theorem open_not_connected (host : Host) (env : open_env) (t_config : List Char)
    (inbox : List aldap_message)
    (h : ∀ conf ldap closed, open_conf env t_config = some conf →
      ldap_client_connect env.net conf ≠ (some ldap, closed)) :
    (table_ldap_open host env t_config inbox).handle = none := by
  unfold table_ldap_open
  cases hconf : open_conf env t_config with
  | none => rfl
  | some conf =>
    simp only
    split
    · rfl
    · rename_i ldap closed hconn
      exact absurd hconn (h conf ldap closed hconf)

/-- A session `ldap_client_connect` returns is the one `aldap_init` makes for
its descriptor. -/
theorem ldap_client_connect_init (net : network) (conf : ldap_conf) (ldap : aldap)
    (closed : List Int) (h : ldap_client_connect net conf = (some ldap, closed)) :
    ∃ fd, ldap = aldap_init fd := by
  unfold ldap_client_connect at h
  simp only at h
  split at h
  · exact absurd h (by simp)
  split at h
  · exact absurd h (by simp)
  split at h
  · rename_i fd _ _
    simp only [Prod.mk.injEq, Option.some.injEq] at h
    exact ⟨fd, h.1.symm⟩
  · exact absurd h (by simp)

/-- The session after `aldap_bind`: the bind is recorded after those before
it, under the next message id; the rest of the session is unchanged. -/
theorem aldap_bind_record (host : Host) (ldap : aldap) (u p : List Char) :
    (aldap_bind host ldap u p).2 =
      { ldap with msgid := ldap.msgid + 1, binds := ldap.binds ++ [(u, p)] } := by
  unfold aldap_bind
  simp only
  split <;> rfl

/-- After a connection, the session `table_ldap_open` leaves is the session
after `aldap_bind`, returned in the handle, or that session closed, with or
without the response disposed of, and no handle. -/
theorem open_connected_session (host : Host) (env : open_env) (t_config : List Char)
    (inbox : List aldap_message) (conf : ldap_conf) (ldap : aldap) (closed : List Int)
    (hconf : open_conf env t_config = some conf)
    (hconn : ldap_client_connect env.net conf = (some ldap, closed)) :
    ((table_ldap_open host env t_config inbox).handle =
        some ⟨conf, (aldap_bind host ldap conf.username conf.password).2⟩ ∧
      (table_ldap_open host env t_config inbox).session =
        some (aldap_bind host ldap conf.username conf.password).2) ∨
    ((table_ldap_open host env t_config inbox).handle = none ∧
      ((table_ldap_open host env t_config inbox).session =
          some (aldap_close (aldap_bind host ldap conf.username conf.password).2) ∨
        ∃ m, (table_ldap_open host env t_config inbox).session =
          some (aldap_freemsg
            (aldap_close (aldap_bind host ldap conf.username conf.password).2) m))) := by
  rw [open_connected host env t_config inbox conf ldap closed hconf hconn]
  split
  · exact Or.inr ⟨rfl, Or.inl rfl⟩
  · cases inbox with
    | nil => exact Or.inr ⟨rfl, Or.inl rfl⟩
    | cons m rest =>
      simp only
      cases m.rescode with
      | LDAP_SUCCESS => exact Or.inl ⟨rfl, rfl⟩
      | LDAP_INVALID_CREDENTIALS => exact Or.inr ⟨rfl, Or.inr ⟨m, rfl⟩⟩
      | LDAP_OTHER code => exact Or.inr ⟨rfl, Or.inr ⟨m, rfl⟩⟩

/-- C10: `table_ldap_open` returns a handle exactly when the connection was
established, `aldap_bind` did not return -1 (the bind request, which carries
the next message id, was written), a response was received and its result
code is success.  On every path after the connection was established the
session records exactly one bind request, made with the user name and the
password of the configuration under message id 1, and no search; a handle
that is returned holds that configuration and that session, not closed; and
when no handle is returned (the bind request not written, no response, invalid
credentials or any other result code) the session has been closed exactly
once. -/
theorem open_handle_iff (host : Host) (env : open_env) (t_config : List Char)
    (inbox : List aldap_message) :
    ((table_ldap_open host env t_config inbox).handle.isSome = true ↔
      ∃ conf ldap closed m rest,
        open_conf env t_config = some conf ∧
        ldap_client_connect env.net conf = (some ldap, closed) ∧
        (aldap_bind host ldap conf.username conf.password).1 ≠ -1 ∧
        host.aldap_write (ldap.msgid + 1) = true ∧
        inbox = m :: rest ∧ m.rescode = .LDAP_SUCCESS) ∧
    (∀ conf ldap closed,
      open_conf env t_config = some conf →
      ldap_client_connect env.net conf = (some ldap, closed) →
      (∃ s, (table_ldap_open host env t_config inbox).session = some s ∧
        s.fd = ldap.fd ∧ s.binds = [(conf.username, conf.password)] ∧
        s.msgid = 1 ∧ s.searches = []) ∧
      (∀ h, (table_ldap_open host env t_config inbox).handle = some h →
        h.conf = conf ∧
        (table_ldap_open host env t_config inbox).session = some h.aldap ∧
        h.aldap.closed = 0) ∧
      ((table_ldap_open host env t_config inbox).handle = none →
        ∃ s, (table_ldap_open host env t_config inbox).session = some s ∧
          s.fd = ldap.fd ∧ s.closed = 1)) := by
  constructor
  · constructor
    · intro h
      by_cases hc : ∃ conf ldap closed, open_conf env t_config = some conf ∧
          ldap_client_connect env.net conf = (some ldap, closed)
      · obtain ⟨conf, ldap, closed, hconf, hconn⟩ := hc
        obtain ⟨hw, m, rest, hin, hcode⟩ :=
          (open_connected_cases host env t_config inbox conf ldap closed hconf hconn).1.mp h
        have hret : (aldap_bind host ldap conf.username conf.password).1 ≠ -1 := by
          intro e
          rw [(aldap_bind_ret host ldap conf.username conf.password).mp e] at hw
          exact absurd hw (by simp)
        exact ⟨conf, ldap, closed, m, rest, hconf, hconn, hret, hw, hin, hcode⟩
      · have hnone := open_not_connected host env t_config inbox
          (fun conf ldap closed hconf hconn => hc ⟨conf, ldap, closed, hconf, hconn⟩)
        rw [hnone] at h
        exact absurd h (by simp)
    · rintro ⟨conf, ldap, closed, m, rest, hconf, hconn, _, hw, hin, hcode⟩
      exact (open_connected_cases host env t_config inbox conf ldap closed hconf hconn).1.mpr
        ⟨hw, m, rest, hin, hcode⟩
  · intro conf ldap closed hconf hconn
    obtain ⟨fd, hinit⟩ := ldap_client_connect_init env.net conf ldap closed hconn
    have hb := aldap_bind_record host ldap conf.username conf.password
    have hcases := open_connected_session host env t_config inbox conf ldap closed hconf hconn
    rw [hb] at hcases
    refine ⟨?_, ?_, ?_⟩
    · rcases hcases with ⟨_, hs⟩ | ⟨_, hs | ⟨m, hs⟩⟩
      · exact ⟨_, hs, rfl, by simp [hinit, aldap_init], by simp [hinit, aldap_init],
          by simp [hinit, aldap_init]⟩
      · exact ⟨_, hs, rfl, by simp [hinit, aldap_init, aldap_close],
          by simp [hinit, aldap_init, aldap_close], by simp [hinit, aldap_init, aldap_close]⟩
      · exact ⟨_, hs, rfl, by simp [hinit, aldap_init, aldap_close, aldap_freemsg],
          by simp [hinit, aldap_init, aldap_close, aldap_freemsg],
          by simp [hinit, aldap_init, aldap_close, aldap_freemsg]⟩
    · intro h hh
      rcases hcases with ⟨hh2, hs⟩ | ⟨hh2, _⟩
      · rw [hh2] at hh
        have e := Option.some.inj hh
        rw [← e]
        exact ⟨rfl, hs, by simp [hinit, aldap_init]⟩
      · rw [hh2] at hh
        exact absurd hh (by simp)
    · intro hnone
      obtain ⟨s, hs, hfd, hcl⟩ :=
        (open_connected_cases host env t_config inbox conf ldap closed hconf hconn).2 hnone
      refine ⟨s, hs, hfd, ?_⟩
      rw [hcl, (ldap_client_connect_fresh env.net conf ldap closed hconn).1]

/-- An instance of C10: the server refuses the credentials; the session
records the one bind that was made and is closed once. -/
theorem open_handle_iff_witness :
    (∃ s, (table_ldap_open demo_host demo_env "ldap1".toList
        [demo_bind_response .LDAP_INVALID_CREDENTIALS]).session = some s ∧
      s.fd = (aldap_init 5).fd ∧
      s.binds = [("cn=smtpd".toList, "secret".toList)] ∧ s.msgid = 1 ∧ s.searches = []) ∧
    (∃ s, (table_ldap_open demo_host demo_env "ldap1".toList
        [demo_bind_response .LDAP_INVALID_CREDENTIALS]).session = some s ∧
      s.fd = (aldap_init 5).fd ∧ s.closed = 1) :=
  ⟨((open_handle_iff demo_host demo_env "ldap1".toList
      [demo_bind_response .LDAP_INVALID_CREDENTIALS]).2
      (demo_handle "(mail=%k)".toList).conf (aldap_init 5) [4] (by decide) (by decide)).1,
    ((open_handle_iff demo_host demo_env "ldap1".toList
      [demo_bind_response .LDAP_INVALID_CREDENTIALS]).2
      (demo_handle "(mail=%k)".toList).conf (aldap_init 5) [4] (by decide) (by decide)).2.2
      (by decide)⟩


/-! ## Configuring a table -/

/-- C11: when the parsed key/value map of the configuration text has no `url`
entry, `table_ldap_config` returns 0 and `table_set_config` is not called; it
returns 1 exactly when the text is present, parses, is of type `T_HASH` and
has a `url` entry, and then the parsed configuration is the one attached; in
every other case it returns 0 and attaches nothing. -/
theorem config_requires_url (config_parse : List Char → Option config_table)
    (config : Option (List Char)) :
    (∀ text cfg, config = some text → config_parse text = some cfg →
      table_get cfg "url".toList = none →
      (table_ldap_config config_parse config).ret = 0 ∧
        (table_ldap_config config_parse config).attached = none) ∧
    ((table_ldap_config config_parse config).ret = 1 ↔
      ∃ text cfg, config = some text ∧ config_parse text = some cfg ∧
        cfg.t_type = .T_HASH ∧ (table_get cfg "url".toList).isSome = true) ∧
    (∀ text cfg, config = some text → config_parse text = some cfg →
      (table_ldap_config config_parse config).ret = 1 →
      (table_ldap_config config_parse config).attached = some cfg) ∧
    ((table_ldap_config config_parse config).ret ≠ 1 →
      (table_ldap_config config_parse config).ret = 0 ∧
        (table_ldap_config config_parse config).attached = none) := by
  cases config with
  | none =>
    have hres : table_ldap_config config_parse none = ⟨0, none, 0⟩ := rfl
    rw [hres]
    refine ⟨fun _ _ h => absurd h (by simp), ⟨fun h => absurd h (by simp), ?_⟩,
      fun _ _ h => absurd h (by simp), fun _ => ⟨rfl, rfl⟩⟩
    rintro ⟨_, _, h, _⟩
    exact absurd h (by simp)
  | some text =>
    cases hp : config_parse text with
    | none =>
      have hres : table_ldap_config config_parse (some text) = ⟨0, none, 1⟩ := by
        unfold table_ldap_config; simp only [hp]
      rw [hres]
      refine ⟨fun _ _ _ _ _ => ⟨rfl, rfl⟩, ⟨fun h => absurd h (by simp), ?_⟩,
        fun _ _ _ _ h => absurd h (by simp), fun _ => ⟨rfl, rfl⟩⟩
      rintro ⟨t, c, ht, hc, _⟩
      rw [← Option.some.inj ht, hp] at hc
      exact absurd hc (by simp)
    | some cfg =>
      by_cases hty : cfg.t_type = .T_HASH
      · cases hurl : table_get cfg "url".toList with
        | none =>
          have hres : table_ldap_config config_parse (some text) = ⟨0, none, 1⟩ := by
            unfold table_ldap_config; simp only [hp, hty, hurl]; rfl
          rw [hres]
          refine ⟨fun _ _ _ _ _ => ⟨rfl, rfl⟩, ⟨fun h => absurd h (by simp), ?_⟩,
            fun _ _ _ _ h => absurd h (by simp), fun _ => ⟨rfl, rfl⟩⟩
          rintro ⟨t, c, ht, hc, _, hsome⟩
          rw [← Option.some.inj ht, hp] at hc
          rw [← Option.some.inj hc, hurl] at hsome
          exact absurd hsome (by simp)
        | some v =>
          have hres : table_ldap_config config_parse (some text) =
              ⟨1, some cfg, 0⟩ := by
            unfold table_ldap_config; simp only [hp, hty, hurl]; rfl
          rw [hres]
          refine ⟨?_, ⟨fun _ => ⟨text, cfg, rfl, hp, hty, by rw [hurl]; rfl⟩, fun _ => rfl⟩,
            ?_, fun h => absurd rfl h⟩
          · rintro t c ht hc hn
            rw [← Option.some.inj ht, hp] at hc
            rw [← Option.some.inj hc, hurl] at hn
            exact absurd hn (by simp)
          · rintro t c ht hc _
            rw [← Option.some.inj ht, hp] at hc
            rw [Option.some.inj hc]
      · have hres : table_ldap_config config_parse (some text) = ⟨0, none, 1⟩ := by
          unfold table_ldap_config; simp only [hp]; rw [if_pos hty]
        rw [hres]
        refine ⟨fun _ _ _ _ _ => ⟨rfl, rfl⟩, ⟨fun h => absurd h (by simp), ?_⟩,
          fun _ _ _ _ h => absurd h (by simp), fun _ => ⟨rfl, rfl⟩⟩
        rintro ⟨t, c, ht, hc, hh, _⟩
        rw [← Option.some.inj ht, hp] at hc
        rw [← Option.some.inj hc] at hh
        exact absurd hh hty

/-- An instance of C11: a key/value configuration without `url`. -/
theorem config_requires_url_witness :
    (table_ldap_config
        (demo_config_parse (some ⟨.T_HASH, [("basedn".toList, "dc=example".toList)]⟩))
        (some "basedn dc=example".toList)).ret = 0 ∧
      (table_ldap_config
        (demo_config_parse (some ⟨.T_HASH, [("basedn".toList, "dc=example".toList)]⟩))
        (some "basedn dc=example".toList)).attached = none :=
  (config_requires_url
    (demo_config_parse (some ⟨.T_HASH, [("basedn".toList, "dc=example".toList)]⟩))
    (some "basedn dc=example".toList)).1 "basedn dc=example".toList
    ⟨.T_HASH, [("basedn".toList, "dc=example".toList)]⟩ rfl rfl (by decide)


/-! ## Messages that abort a lookup -/

/-- After complete pages that each ended with a cookie and good entries of the
page that follows, `table_ldap_alias` is in its loop at the next message, the
outstanding id being that of the last request. -/
theorem alias_reaches (host : Host) (hdl : ldaphandle) (key f : List Char)
    (pages : List page) (entries rest : List aldap_message)
    (hf : table_ldap_expandfilter host hdl key = some f)
    (hw : host.aldap_write (hdl.aldap.msgid + 1) = true)
    (hpages : continued host hdl.conf.m_ldapattr (hdl.aldap.msgid + 1) pages = true)
    (hentries : entries.all
      (entry_ok host hdl.conf.m_ldapattr (hdl.aldap.msgid + 1 + pages.length)) = true) :
    ∃ (ldap : aldap) (t : table_alias),
      ldap.msgid = hdl.aldap.msgid + 1 + pages.length ∧
      table_ldap_alias host hdl key (response_stream pages ++ (entries ++ rest)) =
        alias_loop host hdl.conf f rest ldap t := by
  obtain ⟨ldap1, h1, _, h3⟩ := alias_start host hdl key f
    (response_stream pages ++ (entries ++ rest)) hf hw
  obtain ⟨l2, h21, _, h23⟩ := alias_loop_continued host hdl.conf f (entries ++ rest)
    pages ldap1 ⟨[], 0⟩ (by rw [h1]; exact hpages)
  obtain ⟨l3, h31, _, h33⟩ := alias_loop_entries host hdl.conf f rest entries l2
    ⟨[] ++ pages_values host hdl.conf.m_ldapattr pages,
      0 + (pages_values host hdl.conf.m_ldapattr pages).length⟩
    (by rw [h21, h1]; exact hentries)
  exact ⟨l3, _, by rw [h31, h21, h1], by rw [h3, h23, h33]⟩

/-- The loop over the values of an entry fails when one value does not parse. -/
theorem alias_values_bad (host : Host) :
    ∀ (vs : List (List Char)) (t : table_alias),
      (∃ v ∈ vs, host.alias_parse v = none) → alias_values host vs t = none := by
  intro vs
  induction vs with
  | nil => intro t h; obtain ⟨v, hv, _⟩ := h; exact absurd hv (by simp)
  | cons v vs ih =>
    intro t h
    simp only [alias_values]
    cases hv : host.alias_parse v with
    | none => rfl
    | some n =>
      simp only
      apply ih
      obtain ⟨w, hw, hwn⟩ := h
      rcases List.mem_cons.mp hw with e | hmem
      · rw [e, hv] at hwn; exact absurd hwn (by simp)
      · exact ⟨w, hmem, hwn⟩

/-- A message with the outstanding id that is neither a search entry nor a
search result ends the loop with failure and nothing stored. -/
theorem alias_loop_other_type (host : Host) (conf : ldap_conf) (f : List Char)
    (m : aldap_message) (rest : List aldap_message) (ldap : aldap) (t : table_alias)
    (hid : m.msgid = (ldap.msgid : Int))
    (h1 : m.message_type ≠ .LDAP_RES_SEARCH_RESULT)
    (h2 : m.message_type ≠ .LDAP_RES_SEARCH_ENTRY) :
    alias_loop host conf f (m :: rest) ldap t = ⟨-1, .unwritten, aldap_freemsg ldap m⟩ := by
  rw [alias_loop.eq_2]
  simp only [hid, ne_eq, not_true_eq_false, if_false, h1, h2, not_false_eq_true, if_true]

/-- A search entry with the outstanding id for which `aldap_match_attr` does
not return 1 ends the loop with failure and nothing stored. -/
theorem alias_loop_no_attr (host : Host) (conf : ldap_conf) (f : List Char)
    (m : aldap_message) (rest : List aldap_message) (ldap : aldap) (t : table_alias)
    (hid : m.msgid = (ldap.msgid : Int))
    (hty : m.message_type = .LDAP_RES_SEARCH_ENTRY)
    (hattr : host.aldap_match_attr m conf.m_ldapattr = none) :
    alias_loop host conf f (m :: rest) ldap t = ⟨-1, .unwritten, aldap_freemsg ldap m⟩ := by
  rw [alias_loop.eq_2]
  simp only [hid, ne_eq, not_true_eq_false, if_false, hty, reduceCtorEq, hattr]

/-- A search entry with the outstanding id one of whose values does not parse
ends the loop with failure and nothing stored. -/
theorem alias_loop_bad_value (host : Host) (conf : ldap_conf) (f : List Char)
    (m : aldap_message) (rest : List aldap_message) (ldap : aldap) (t : table_alias)
    (vs : List (List Char))
    (hid : m.msgid = (ldap.msgid : Int))
    (hty : m.message_type = .LDAP_RES_SEARCH_ENTRY)
    (hattr : host.aldap_match_attr m conf.m_ldapattr = some vs)
    (hbad : ∃ v ∈ vs, host.alias_parse v = none) :
    alias_loop host conf f (m :: rest) ldap t = ⟨-1, .unwritten, aldap_freemsg ldap m⟩ := by
  rw [alias_loop.eq_2]
  simp only [hid, ne_eq, not_true_eq_false, if_false, hty, reduceCtorEq, hattr,
    alias_values_bad host vs t hbad]

/-- C12: when, after any number of complete pages that each ended with a cookie
and any number of good entries of the page that follows, a message with the
outstanding id arrives that is neither a search entry nor a search result, or
that is a search entry one of whose attribute values does not parse, the
lookup returns -1 and leaves the caller's result pointer unwritten: no value
appended before is returned.  This holds for `table_ldap_alias`, and for
`table_ldap_virtual` when the key contains `@`. -/
theorem lookup_bad_message (host : Host) (hdl : ldaphandle) (key f : List Char)
    (pages : List page) (entries : List aldap_message) (m : aldap_message)
    (rest : List aldap_message)
    (hf : table_ldap_expandfilter host hdl key = some f)
    (hw : host.aldap_write (hdl.aldap.msgid + 1) = true)
    (hpages : continued host hdl.conf.m_ldapattr (hdl.aldap.msgid + 1) pages = true)
    (hentries : entries.all
      (entry_ok host hdl.conf.m_ldapattr (hdl.aldap.msgid + 1 + pages.length)) = true)
    (hid : m.msgid = ((hdl.aldap.msgid + 1 + pages.length : Nat) : Int))
    (hbad : (m.message_type ≠ .LDAP_RES_SEARCH_ENTRY ∧
        m.message_type ≠ .LDAP_RES_SEARCH_RESULT) ∨
      (m.message_type = .LDAP_RES_SEARCH_ENTRY ∧
        ∃ vs, host.aldap_match_attr m hdl.conf.m_ldapattr = some vs ∧
          ∃ v ∈ vs, host.alias_parse v = none)) :
    ((table_ldap_alias host hdl key
          (response_stream pages ++ (entries ++ m :: rest))).ret = -1 ∧
      (table_ldap_alias host hdl key
          (response_stream pages ++ (entries ++ m :: rest))).retp = .unwritten) ∧
    ('@' ∈ key →
      (table_ldap_virtual host hdl key
          (response_stream pages ++ (entries ++ m :: rest))).ret = -1 ∧
      (table_ldap_virtual host hdl key
          (response_stream pages ++ (entries ++ m :: rest))).retp = .unwritten) := by
  obtain ⟨ldap, t, hmsgid, hrun⟩ := alias_reaches host hdl key f pages entries (m :: rest)
    hf hw hpages hentries
  have hid2 : m.msgid = (ldap.msgid : Int) := by rw [hmsgid]; exact hid
  have hstep : alias_loop host hdl.conf f (m :: rest) ldap t =
      ⟨-1, .unwritten, aldap_freemsg ldap m⟩ := by
    rcases hbad with ⟨h1, h2⟩ | ⟨hty, vs, hattr, hv⟩
    · exact alias_loop_other_type host hdl.conf f m rest ldap t hid2 h2 h1
    · exact alias_loop_bad_value host hdl.conf f m rest ldap t vs hid2 hty hattr hv
  have halias : (table_ldap_alias host hdl key
        (response_stream pages ++ (entries ++ m :: rest))).ret = -1 ∧
      (table_ldap_alias host hdl key
        (response_stream pages ++ (entries ++ m :: rest))).retp = .unwritten := by
    rw [hrun, hstep]; exact ⟨rfl, rfl⟩
  refine ⟨halias, fun hkey => ?_⟩
  rw [virtual_eq_alias host hdl key _ hkey]
  exact ⟨halias.1, as_virtual_retp_unwritten _ halias.2⟩

/-- An instance of C12: on the second page an entry has an empty value, which
does not parse. -/
theorem lookup_bad_message_witness :
    (table_ldap_alias demo_host (demo_handle "(mail=%k)".toList) "joe@x.org".toList
        [demo_entry 1 ["a@b".toList], demo_result 1 [7], demo_entry 2 ["d".toList],
          demo_entry 2 ["e".toList, []], demo_result 2 []]).retp = .unwritten :=
  (lookup_bad_message demo_host (demo_handle "(mail=%k)".toList) "joe@x.org".toList
    "(mail=joe@x.org)".toList [⟨[demo_entry 1 ["a@b".toList]], demo_result 1 [7]⟩]
    [demo_entry 2 ["d".toList]] (demo_entry 2 ["e".toList, []]) [demo_result 2 []]
    (by decide) (by decide) (by decide) (by decide) (by decide)
    (Or.inr ⟨by decide, ["e".toList, []], by decide, [], by decide, by decide⟩)).1.2

/-- C17: when, after any number of complete pages that each ended with a cookie
and any number of good entries of the page that follows, a search entry with
the outstanding id arrives for which `aldap_match_attr` does not return 1, the
lookup returns -1 and leaves the caller's result pointer unwritten; the entry
is not skipped.  This holds for `table_ldap_alias`, and for
`table_ldap_virtual` when the key contains `@`. -/
theorem lookup_entry_without_attribute (host : Host) (hdl : ldaphandle) (key f : List Char)
    (pages : List page) (entries : List aldap_message) (m : aldap_message)
    (rest : List aldap_message)
    (hf : table_ldap_expandfilter host hdl key = some f)
    (hw : host.aldap_write (hdl.aldap.msgid + 1) = true)
    (hpages : continued host hdl.conf.m_ldapattr (hdl.aldap.msgid + 1) pages = true)
    (hentries : entries.all
      (entry_ok host hdl.conf.m_ldapattr (hdl.aldap.msgid + 1 + pages.length)) = true)
    (hid : m.msgid = ((hdl.aldap.msgid + 1 + pages.length : Nat) : Int))
    (hty : m.message_type = .LDAP_RES_SEARCH_ENTRY)
    (hattr : host.aldap_match_attr m hdl.conf.m_ldapattr = none) :
    ((table_ldap_alias host hdl key
          (response_stream pages ++ (entries ++ m :: rest))).ret = -1 ∧
      (table_ldap_alias host hdl key
          (response_stream pages ++ (entries ++ m :: rest))).retp = .unwritten) ∧
    ('@' ∈ key →
      (table_ldap_virtual host hdl key
          (response_stream pages ++ (entries ++ m :: rest))).ret = -1 ∧
      (table_ldap_virtual host hdl key
          (response_stream pages ++ (entries ++ m :: rest))).retp = .unwritten) := by
  obtain ⟨ldap, t, hmsgid, hrun⟩ := alias_reaches host hdl key f pages entries (m :: rest)
    hf hw hpages hentries
  have hid2 : m.msgid = (ldap.msgid : Int) := by rw [hmsgid]; exact hid
  have halias : (table_ldap_alias host hdl key
        (response_stream pages ++ (entries ++ m :: rest))).ret = -1 ∧
      (table_ldap_alias host hdl key
        (response_stream pages ++ (entries ++ m :: rest))).retp = .unwritten := by
    rw [hrun, alias_loop_no_attr host hdl.conf f m rest ldap t hid2 hty hattr]
    exact ⟨rfl, rfl⟩
  refine ⟨halias, fun hkey => ?_⟩
  rw [virtual_eq_alias host hdl key _ hkey]
  exact ⟨halias.1, as_virtual_retp_unwritten _ halias.2⟩

/-- An instance of C17: the second entry of the page carries `cn` only. -/
theorem lookup_entry_without_attribute_witness :
    (table_ldap_alias demo_host (demo_handle "(mail=%k)".toList) "joe@x.org".toList
        [demo_entry 1 ["a@b".toList],
          ⟨1, .LDAP_RES_SEARCH_ENTRY, none, .LDAP_SUCCESS, [("cn".toList, ["Joe".toList])]⟩,
          demo_result 1 []]).ret = -1 :=
  (lookup_entry_without_attribute demo_host (demo_handle "(mail=%k)".toList)
    "joe@x.org".toList "(mail=joe@x.org)".toList [] [demo_entry 1 ["a@b".toList]]
    ⟨1, .LDAP_RES_SEARCH_ENTRY, none, .LDAP_SUCCESS, [("cn".toList, ["Joe".toList])]⟩
    [demo_result 1 []]
    (by decide) (by decide) (by decide) (by decide) (by decide) (by decide) (by decide)).1.1


/-! ## Disposal of received messages -/

/-- C13, at the failing input: the server accepts the credentials.
`table_ldap_open` returns a handle and the bind response it received has not
been given to `aldap_freemsg`; when the server refuses the credentials the
response is given to `aldap_freemsg` once. -/
theorem open_success_keeps_bind_response :
    (table_ldap_open demo_host demo_env "ldap1".toList
        [demo_bind_response .LDAP_SUCCESS]).handle.isSome = true ∧
      (table_ldap_open demo_host demo_env "ldap1".toList
        [demo_bind_response .LDAP_SUCCESS]).session.map (fun s => s.freed) = some [] ∧
      (table_ldap_open demo_host demo_env "ldap1".toList
        [demo_bind_response .LDAP_INVALID_CREDENTIALS]).session.map (fun s => s.freed) =
        some [demo_bind_response .LDAP_INVALID_CREDENTIALS] := by
  decide

/-! ## The reference scan and the exact length limit -/

/-- The reference scan is the scan of the function without its length tests. -/
theorem reference_scan_eq_expansion (key : List Char) :
    ∀ (tpl : List Char), reference_scan key tpl = expansion key tpl := by
  intro tpl
  induction tpl using expansion.induct key with
  | case1 => rw [reference_scan.eq_1, expansion.eq_1]
  | case2 =>
    rw [reference_scan.eq_3 key [] (fun _ h => by cases h), reference_scan.eq_1,
      expansion_percent_end]
  | case3 rest2 ih => rw [reference_scan.eq_2, expansion_placeholder, ih]
  | case4 c2 rest2 hc2 ih =>
    rw [reference_scan.eq_3 key (c2 :: rest2) (fun _ h => hc2 (List.cons.inj h).1),
      expansion_percent _ _ _ hc2, ih]
  | case5 c rest hc ih =>
    rw [reference_scan.eq_4 key c rest (fun _ h _ => hc h) hc, expansion_other _ _ _ hc, ih]

/-- On a library that keeps the destination, for every template and key whose
reference scan is shorter than the buffer size `2 * MAX_LDAP_FILTERLEN`, that
size fitting an `int`, `table_ldap_expandfilter` returns the reference scan. -/
theorem expandfilter_reference_scan_kept (host : Host) (hdl : ldaphandle) (key : List Char)
    (hlib : host.overlap = .kept)
    (hsize : host.MAX_LDAP_FILTERLEN * 2 ≤ 2147483647)
    (hlen : (reference_scan key hdl.conf.m_ldapfilter).length <
      host.MAX_LDAP_FILTERLEN * 2) :
    table_ldap_expandfilter host hdl key =
      some (reference_scan key hdl.conf.m_ldapfilter) := by
  rw [reference_scan_eq_expansion] at hlen ⊢
  exact expandfilter_fits host hdl key hlib hsize hlen

/-- C14, at the failing input: a C library that clears the destination of
`snprintf` before it formats.  For the template `(mail=%k)` and the key `joe`
the reference scan is `(mail=joe)`, well within the limit, and
`table_ldap_expandfilter` returns `)`; the template `ab` comes back as `b`;
the template `(|(a=%k)(b=%k))%x%` with the key `%k` comes back as `x`.  Only
the piece written by the last `snprintf` is returned. -/
theorem expandfilter_cleared_last_piece :
    reference_scan "joe".toList "(mail=%k)".toList = "(mail=joe)".toList ∧
      (reference_scan "joe".toList "(mail=%k)".toList).length <
        demo_host_cleared.MAX_LDAP_FILTERLEN * 2 ∧
      table_ldap_expandfilter demo_host_cleared (demo_handle "(mail=%k)".toList)
        "joe".toList = some ")".toList ∧
      reference_scan "joe".toList "ab".toList = "ab".toList ∧
      table_ldap_expandfilter demo_host_cleared (demo_handle "ab".toList) "joe".toList =
        some "b".toList ∧
      reference_scan "%k".toList "(|(a=%k)(b=%k))%x%".toList =
        "(|(a=%k)(b=%k))x".toList ∧
      table_ldap_expandfilter demo_host_cleared (demo_handle "(|(a=%k)(b=%k))%x%".toList)
        "%k".toList = some "x".toList := by
  decide

/-- On a library that keeps the destination, with a buffer of positive size
`2 * MAX_LDAP_FILTERLEN` that fits an `int`, `table_ldap_expandfilter`
succeeds exactly when the complete expansion has at most
`2 * MAX_LDAP_FILTERLEN - 1` characters, and then returns it; an expansion of
exactly `2 * MAX_LDAP_FILTERLEN` characters is rejected. -/
theorem expandfilter_succeeds_iff_kept (host : Host) (hdl : ldaphandle) (key : List Char)
    (hlib : host.overlap = .kept)
    (hpos : 0 < host.MAX_LDAP_FILTERLEN)
    (hsize : host.MAX_LDAP_FILTERLEN * 2 ≤ 2147483647) :
    ((table_ldap_expandfilter host hdl key).isSome = true ↔
      (expansion key hdl.conf.m_ldapfilter).length ≤ host.MAX_LDAP_FILTERLEN * 2 - 1) ∧
    ((expansion key hdl.conf.m_ldapfilter).length ≤ host.MAX_LDAP_FILTERLEN * 2 - 1 →
      table_ldap_expandfilter host hdl key = some (expansion key hdl.conf.m_ldapfilter)) ∧
    ((expansion key hdl.conf.m_ldapfilter).length = host.MAX_LDAP_FILTERLEN * 2 →
      table_ldap_expandfilter host hdl key = none) := by
  have hfit : (expansion key hdl.conf.m_ldapfilter).length ≤
      host.MAX_LDAP_FILTERLEN * 2 - 1 →
      table_ldap_expandfilter host hdl key = some (expansion key hdl.conf.m_ldapfilter) :=
    fun h => expandfilter_fits host hdl key hlib hsize (by omega)
  have hconv : ∀ out, table_ldap_expandfilter host hdl key = some out →
      (expansion key hdl.conf.m_ldapfilter).length ≤ host.MAX_LDAP_FILTERLEN * 2 - 1 := by
    intro out h
    obtain ⟨h1, h2⟩ := expandfilter_some host hdl key out hlib h
    rw [← h1]
    rcases h2 with h2 | h2
    · rw [h2]; simp
    · omega
  refine ⟨⟨fun h => ?_, fun h => by rw [hfit h]; rfl⟩, hfit, fun h => ?_⟩
  · obtain ⟨out, hout⟩ := Option.isSome_iff_exists.mp h
    exact hconv out hout
  · cases hres : table_ldap_expandfilter host hdl key with
    | none => rfl
    | some out =>
      have := hconv out hres
      omega

/-- C15, at the failing input: a C library that clears the destination of
`snprintf` before it formats, `MAX_LDAP_FILTERLEN` 1024, the template
`(mail=%k)` and a key of 2041 letters `x`.  The complete expansion has exactly
2048 characters, twice `MAX_LDAP_FILTERLEN`, yet `table_ldap_expandfilter`
does not reject it and returns the filter `)`: each test sees the length of
one piece, not of the expansion. -/
theorem expandfilter_cleared_accepts_full_length :
    (expansion (List.replicate 2041 'x')
        (demo_handle "(mail=%k)".toList).conf.m_ldapfilter).length =
        demo_host_cleared.MAX_LDAP_FILTERLEN * 2 ∧
      table_ldap_expandfilter demo_host_cleared (demo_handle "(mail=%k)".toList)
        (List.replicate 2041 'x') = some ")".toList := by
  constructor
  · show (expansion (List.replicate 2041 'x') "(mail=%k)".toList).length = 1024 * 2
    rw [expansion_mail, List.length_append, List.length_append, List.length_replicate]
    decide
  · exact expandfilter_loop_cleared_mail (1024 * 2) _ (by decide) (by decide)
      (by rw [List.length_replicate]; decide)

/-! ## The two lookups and their dispatch -/

/-- The loop of `table_ldap_alias` ends with 1 and a stored table, or with -1
and nothing stored. -/
theorem alias_loop_outcome (host : Host) (conf : ldap_conf) (f : List Char) :
    ∀ (inbox : List aldap_message) (ldap : aldap) (t : table_alias),
      ((alias_loop host conf f inbox ldap t).ret = 1 ∧
        ∃ t2, (alias_loop host conf f inbox ldap t).retp = .written (some t2)) ∨
      ((alias_loop host conf f inbox ldap t).ret = -1 ∧
        (alias_loop host conf f inbox ldap t).retp = .unwritten) := by
  intro inbox
  induction inbox with
  | nil => intro ldap t; exact Or.inl ⟨rfl, t, rfl⟩
  | cons m rest ih =>
    intro ldap t
    rw [alias_loop.eq_2]
    split
    · exact Or.inr ⟨rfl, rfl⟩
    split
    · split
      · exact Or.inl ⟨rfl, t, rfl⟩
      · simp only []
        split
        · exact Or.inr ⟨rfl, rfl⟩
        · exact ih _ _
    split
    · exact Or.inr ⟨rfl, rfl⟩
    split
    · exact Or.inr ⟨rfl, rfl⟩
    split
    · exact Or.inr ⟨rfl, rfl⟩
    · exact ih _ _

/-- The function `table_ldap_alias` returns 1 with a stored table, or -1 with
nothing stored. -/
theorem alias_outcome (host : Host) (hdl : ldaphandle) (key : List Char)
    (inbox : List aldap_message) :
    ((table_ldap_alias host hdl key inbox).ret = 1 ∧
      ∃ t, (table_ldap_alias host hdl key inbox).retp = .written (some t)) ∨
    ((table_ldap_alias host hdl key inbox).ret = -1 ∧
      (table_ldap_alias host hdl key inbox).retp = .unwritten) := by
  unfold table_ldap_alias
  cases table_ldap_expandfilter host hdl key with
  | none => exact Or.inr ⟨rfl, rfl⟩
  | some f =>
    simp only []
    split
    · exact Or.inr ⟨rfl, rfl⟩
    · exact alias_loop_outcome host hdl.conf f inbox _ _

/-- The function `table_ldap_virtual` returns 1 or -1. -/
theorem virtual_ret (host : Host) (hdl : ldaphandle) (key : List Char)
    (inbox : List aldap_message) :
    (table_ldap_virtual host hdl key inbox).ret = 1 ∨
      (table_ldap_virtual host hdl key inbox).ret = -1 := by
  by_cases hkey : '@' ∈ key
  · rw [virtual_eq_alias host hdl key inbox hkey, as_virtual_ret]
    rcases alias_outcome host hdl key inbox with h | h
    · exact Or.inl h.1
    · exact Or.inr h.1
  · unfold table_ldap_virtual
    cases table_ldap_expandfilter host hdl key with
    | none => exact Or.inr rfl
    | some f => simp [hkey]

/-- C16: for every handle, every key that contains `@` and every response
stream, `table_ldap_virtual` and `table_ldap_alias` leave the same session
behind, hence the same sequence of search requests, return the same value,
and store a result under the same conditions; when they return 1 both store a
table, with the same list and the same node count. -/
theorem virtual_alias_equivalent (host : Host) (hdl : ldaphandle) (key : List Char)
    (inbox : List aldap_message) (hkey : '@' ∈ key) :
    (table_ldap_virtual host hdl key inbox).aldap.searches =
        (table_ldap_alias host hdl key inbox).aldap.searches ∧
      (table_ldap_virtual host hdl key inbox).aldap =
        (table_ldap_alias host hdl key inbox).aldap ∧
      (table_ldap_virtual host hdl key inbox).ret =
        (table_ldap_alias host hdl key inbox).ret ∧
      ((table_ldap_virtual host hdl key inbox).retp = .unwritten ↔
        (table_ldap_alias host hdl key inbox).retp = .unwritten) ∧
      ((table_ldap_alias host hdl key inbox).ret = 1 →
        ∃ (ta : table_alias) (tv : table_virtual),
          (table_ldap_alias host hdl key inbox).retp = .written (some ta) ∧
          (table_ldap_virtual host hdl key inbox).retp = .written (some tv) ∧
          tv.expand = ta.expand ∧ tv.nbnodes = ta.nbnodes) := by
  have heq := virtual_eq_alias host hdl key inbox hkey
  refine ⟨by rw [heq]; rfl, by rw [heq]; rfl, by rw [heq]; rfl, ?_, ?_⟩
  · rw [heq]
    unfold lookup_result.as_virtual
    cases (table_ldap_alias host hdl key inbox).retp with
    | unwritten => simp
    | written v => simp
  · intro hret
    rcases alias_outcome host hdl key inbox with ⟨_, ta, hta⟩ | ⟨hneg, _⟩
    · refine ⟨ta, ⟨ta.expand, ta.nbnodes⟩, hta, ?_, rfl, rfl⟩
      rw [heq]
      exact as_virtual_retp_written _ ta hta
    · rw [hneg] at hret
      exact absurd hret (by decide)

/-- An instance of C16: two pages, the same three values and the same two
requests in both lookups. -/
theorem virtual_alias_equivalent_witness :
    (table_ldap_virtual demo_host (demo_handle "(mail=%k)".toList) "joe@x.org".toList
        [demo_entry 1 ["a@b".toList, "c".toList], demo_result 1 [7],
          demo_entry 2 ["d".toList], demo_result 2 []]).aldap.searches =
      (table_ldap_alias demo_host (demo_handle "(mail=%k)".toList) "joe@x.org".toList
        [demo_entry 1 ["a@b".toList, "c".toList], demo_result 1 [7],
          demo_entry 2 ["d".toList], demo_result 2 []]).aldap.searches :=
  (virtual_alias_equivalent demo_host (demo_handle "(mail=%k)".toList) "joe@x.org".toList
    [demo_entry 1 ["a@b".toList, "c".toList], demo_result 1 [7],
      demo_entry 2 ["d".toList], demo_result 2 []] (by decide)).1

/-- C18: for every lookup kind other than alias and virtual,
`table_ldap_lookup` returns 0, leaves the caller's result pointer unwritten
and the session as it was, so issues no search request; for the alias and the
virtual kind it returns the value, the result and the session of
`table_ldap_alias` and `table_ldap_virtual`; and for every kind the value it
returns is -1, 0 or 1. -/
theorem lookup_dispatch (host : Host) (hdl : ldaphandle) (key : List Char)
    (inbox : List aldap_message) :
    (∀ service, service ≠ .K_ALIAS → service ≠ .K_VIRTUAL →
      (table_ldap_lookup host hdl key service inbox).ret = 0 ∧
      (table_ldap_lookup host hdl key service inbox).retp = .unwritten ∧
      (table_ldap_lookup host hdl key service inbox).aldap = hdl.aldap ∧
      (table_ldap_lookup host hdl key service inbox).aldap.searches = hdl.aldap.searches) ∧
    ((table_ldap_lookup host hdl key .K_ALIAS inbox).ret =
        (table_ldap_alias host hdl key inbox).ret ∧
      (table_ldap_lookup host hdl key .K_ALIAS inbox).retp =
        (table_ldap_alias host hdl key inbox).retp.map .alias ∧
      (table_ldap_lookup host hdl key .K_ALIAS inbox).aldap =
        (table_ldap_alias host hdl key inbox).aldap) ∧
    ((table_ldap_lookup host hdl key .K_VIRTUAL inbox).ret =
        (table_ldap_virtual host hdl key inbox).ret ∧
      (table_ldap_lookup host hdl key .K_VIRTUAL inbox).retp =
        (table_ldap_virtual host hdl key inbox).retp.map .virtual ∧
      (table_ldap_lookup host hdl key .K_VIRTUAL inbox).aldap =
        (table_ldap_virtual host hdl key inbox).aldap) ∧
    (∀ service, (table_ldap_lookup host hdl key service inbox).ret = -1 ∨
      (table_ldap_lookup host hdl key service inbox).ret = 0 ∨
      (table_ldap_lookup host hdl key service inbox).ret = 1) := by
  refine ⟨?_, ⟨rfl, rfl, rfl⟩, ⟨rfl, rfl, rfl⟩, ?_⟩
  · intro service h1 h2
    cases service with
    | K_ALIAS => exact absurd rfl h1
    | K_VIRTUAL => exact absurd rfl h2
    | K_OTHER n => exact ⟨rfl, rfl, rfl, rfl⟩
  · intro service
    cases service with
    | K_ALIAS =>
      rcases alias_outcome host hdl key inbox with h | h
      · exact Or.inr (Or.inr h.1)
      · exact Or.inl h.1
    | K_VIRTUAL =>
      rcases virtual_ret host hdl key inbox with h | h
      · exact Or.inr (Or.inr h)
      · exact Or.inl h
    | K_OTHER n => exact Or.inr (Or.inl rfl)

/-- An instance of C18: a lookup of another kind on a stream that holds an
entry. -/
theorem lookup_dispatch_witness :
    (table_ldap_lookup demo_host (demo_handle "(mail=%k)".toList) "joe@x.org".toList
        (.K_OTHER 4) [demo_entry 1 ["a@b".toList]]).ret = 0 :=
  ((lookup_dispatch demo_host (demo_handle "(mail=%k)".toList) "joe@x.org".toList
    [demo_entry 1 ["a@b".toList]]).1 (.K_OTHER 4) (by decide) (by decide)).1

end TableLdap
